import Mathlib

/-!
Verification of the resilient external-API access layer of this repository:
the retrying Data.gov HTTP client (`src/external/gov/client.py`) and the
Redis cache manager (`src/cache/redis.py`), shallowly embedded in Lean.

Conventions of the embedding:
* Python dicts are association lists `List (String × β)`; insertion follows
  Python semantics (update-in-place keeps the position of an existing key,
  a fresh key is appended at the end).
* `httpx` request outcomes are an environment `Nat → Except UpErr α`
  giving the result of each attempt (attempt numbering starts at 0).
* The retry loop of `_make_request_with_retry` is translated as a
  fuel-indexed recursion; fuel `max_retries + 1 - retries` makes the
  fallback branch correspond exactly to the defensive code after the
  `while` loop (client.py lines 133-136), which is unreachable.
-/

/-! ## The Data.gov client (`src/external/gov/client.py`) -/

/-- An error observed by one attempt of the retry loop: either a
transport-level failure (`httpx.NetworkError` / `httpx.TimeoutException`,
both are `httpx.HTTPError`s), or an `httpx.HTTPStatusError` raised by
`response.raise_for_status()` (client.py line 113) carrying the status
code of a non-2xx response. -/
inductive UpErr where
  | transport
  | status (code : Nat)
deriving DecidableEq, Repr

/-- client.py line 119: the tuple of status codes the client retries on:
`(408, 429, 500, 502, 503, 504)`. -/
def retryableCode (c : Nat) : Bool :=
  c == 408 || c == 429 || c == 500 || c == 502 || c == 503 || c == 504

/-- client.py line 119: `isinstance(e, httpx.HTTPStatusError) and
e.response.status_code not in (408, 429, 500, 502, 503, 504)` — the
condition under which the loop re-raises at once instead of retrying. -/
def UpErr.noRetry : UpErr → Bool
  | .transport => false
  | .status c => !retryableCode c

/-- What the caller of `_make_request_with_retry` can observe on failure.
The code only ever re-raises the underlying exception itself, embedded as
`bare`.  The `retriesExhausted` constructor is modelled from the spec: the
spec's error taxonomy names a `RetriesExhausted` wrapper "surfaced when the
retry budget is spent", but no such exception class exists anywhere in the
repository; the constructor exists here only so that the spec's claim can
be stated and compared against the code's behaviour. -/
inductive SurfacedError where
  | bare (e : UpErr)
  | retriesExhausted (last : UpErr)
deriving DecidableEq, Repr

/-- Observable trace of one call to `_make_request_with_retry`: how many
attempts were issued, the `asyncio.sleep` delays in order (client.py
lines 129-131), and the final outcome. -/
structure RetryTrace (α : Type) where
  attempts : Nat
  sleeps : List Nat
  result : Except SurfacedError α
deriving Repr

/-- The `while retries <= self.max_retries` loop of
`_make_request_with_retry` (client.py lines 106-131).  `retries` is the
loop counter; `fuel` is `maxRetries + 1 - retries`, so the fuel-0 branch
is the defensive `raise` after the loop (lines 133-136), never reached
from `makeRequestWithRetry`.  On failure: a non-retryable status error is
re-raised at once (line 121); otherwise `retries` is incremented and, if
it now exceeds `max_retries`, the last exception is re-raised (line 126);
else the loop sleeps `retry_delay * 2 ** (retries - 1)` seconds
(line 129, with `retries` already incremented) and tries again. -/
def retryStep (maxRetries retryDelay : Nat) (env : Nat → Except UpErr α) :
    Nat → Nat → RetryTrace α
  | 0, _ => ⟨0, [], .error (.bare .transport)⟩
  | fuel + 1, retries =>
    match env retries with
    | .ok r => ⟨1, [], .ok r⟩
    | .error e =>
      if e.noRetry then
        ⟨1, [], .error (.bare e)⟩
      else if maxRetries < retries + 1 then
        ⟨1, [], .error (.bare e)⟩
      else
        let t := retryStep maxRetries retryDelay env fuel (retries + 1)
        ⟨t.attempts + 1, retryDelay * 2 ^ retries :: t.sleeps, t.result⟩

/-- `_make_request_with_retry` (client.py lines 85-136): run the retry
loop from `retries = 0`. -/
def makeRequestWithRetry (maxRetries retryDelay : Nat)
    (env : Nat → Except UpErr α) : RetryTrace α :=
  retryStep maxRetries retryDelay env (maxRetries + 1) 0

/-- One-step unfolding of `retryStep` at successor fuel (definitional). -/
theorem retryStep_succ {α : Type} (maxRetries retryDelay : Nat)
    (env : Nat → Except UpErr α) (fuel retries : Nat) :
    retryStep maxRetries retryDelay env (fuel + 1) retries =
      match env retries with
      | .ok r => ⟨1, [], .ok r⟩
      | .error e =>
        if e.noRetry then
          ⟨1, [], .error (.bare e)⟩
        else if maxRetries < retries + 1 then
          ⟨1, [], .error (.bare e)⟩
        else
          let t := retryStep maxRetries retryDelay env fuel (retries + 1)
          ⟨t.attempts + 1, retryDelay * 2 ^ retries :: t.sleeps, t.result⟩ := by
  rw [retryStep]

/-- An attempt outcome that enters the retry path: a failure whose
classification at client.py line 119 does not re-raise. -/
def isRetryableFailure : Except UpErr α → Bool
  | .error e => !e.noRetry
  | .ok _ => false

/-- The error carried by a failed attempt (dummy `transport` on success;
only applied to failures). -/
def failureErr : Except UpErr α → UpErr
  | .error e => e
  | .ok _ => .transport

theorem isRetryableFailure_error {α : Type} {x : Except UpErr α}
    (h : isRetryableFailure x = true) :
    x = .error (failureErr x) ∧ (failureErr x).noRetry = false := by
  cases x with
  | ok r => simp [isRetryableFailure] at h
  | error e =>
    simp only [isRetryableFailure, Bool.not_eq_true'] at h
    exact ⟨rfl, h⟩

/-- Shared shape lemma: when every attempt fails retryably, running the
loop from counter `retries` with the matching fuel issues exactly `fuel`
attempts, sleeps the exponential-backoff schedule, and re-raises the
final attempt's error bare. -/
theorem retryStep_exhaust {α : Type} (maxRetries retryDelay : Nat)
    (env : Nat → Except UpErr α)
    (henv : ∀ i, isRetryableFailure (env i) = true) :
    ∀ n retries, n + 1 + retries = maxRetries + 1 →
      retryStep maxRetries retryDelay env (n + 1) retries =
        ⟨n + 1,
         (List.range n).map (fun j => retryDelay * 2 ^ (retries + j)),
         .error (.bare (failureErr (env maxRetries)))⟩ := by
  intro n
  induction n with
  | zero =>
    intro retries hr
    have hret : retries = maxRetries := by omega
    obtain ⟨he, hnr⟩ := isRetryableFailure_error (henv retries)
    rw [retryStep_succ, he]
    simp only [hnr, Bool.false_eq_true, if_false,
      if_pos (by omega : maxRetries < retries + 1)]
    subst hret
    simp
  | succ n ih =>
    intro retries hr
    obtain ⟨he, hnr⟩ := isRetryableFailure_error (henv retries)
    have hlt : ¬ maxRetries < retries + 1 := by omega
    have hrec := ih (retries + 1) (by omega)
    rw [retryStep_succ, he]
    simp only [hnr, Bool.false_eq_true, if_false, if_neg hlt, hrec]
    congr 1
    rw [List.range_succ_eq_map]
    simp only [List.map_cons, List.map_map, Nat.add_zero, pow_zero]
    congr 1
    apply List.map_congr_left
    intro j _
    simp only [Function.comp_apply]
    have hx : retries + 1 + j = retries + j.succ := by omega
    rw [hx]

/-- C1. For a request whose every attempt fails retryably, the client with
`max_retries = N` performs exactly `N + 1` attempts, and the `k`-th retry
(1-indexed) is preceded by a sleep of exactly `base_retry_delay * 2^(k-1)`
seconds — the schedule is the bare powers-of-two list, so there is no
jitter and no cap. -/
theorem retry_all_retryable_attempts_backoff {α : Type} (N d : Nat)
    (env : Nat → Except UpErr α)
    (h : ∀ i, isRetryableFailure (env i) = true) :
    (makeRequestWithRetry N d env).attempts = N + 1 ∧
    (makeRequestWithRetry N d env).sleeps =
      (List.range N).map (fun k => d * 2 ^ k) ∧
    ∃ e, (makeRequestWithRetry N d env).result = .error e := by
  have hx := retryStep_exhaust N d env h N 0 (by omega)
  rw [makeRequestWithRetry, hx]
  exact ⟨rfl, by simp, ⟨_, rfl⟩⟩

theorem retry_all_retryable_attempts_backoff_witness :
    (makeRequestWithRetry 3 1
        (fun _ => (Except.error (UpErr.status 500) : Except UpErr Unit))).attempts = 4 ∧
    (makeRequestWithRetry 3 1
        (fun _ => (Except.error (UpErr.status 500) : Except UpErr Unit))).sleeps = [1, 2, 4] ∧
    ∃ e, (makeRequestWithRetry 3 1
        (fun _ => (Except.error (UpErr.status 500) : Except UpErr Unit))).result
      = .error e := by
  obtain ⟨h1, h2, h3⟩ :=
    retry_all_retryable_attempts_backoff 3 1
      (fun _ => (Except.error (UpErr.status 500) : Except UpErr Unit))
      (fun _ => rfl)
  exact ⟨h1, h2.trans (by decide), h3⟩

/-- C2. A first attempt failing with a status code outside
`{408, 429, 500, 502, 503, 504}` makes the client fail at once: one
attempt, no sleep, and the status error itself is re-raised to the
caller. -/
theorem nonretryable_fails_immediately {α : Type} (N d c : Nat)
    (env : Nat → Except UpErr α)
    (hc : retryableCode c = false)
    (h0 : env 0 = .error (.status c)) :
    makeRequestWithRetry N d env =
      ⟨1, [], .error (.bare (.status c))⟩ := by
  rw [makeRequestWithRetry, retryStep_succ, h0]
  simp [UpErr.noRetry, hc]

theorem nonretryable_fails_immediately_witness :
    makeRequestWithRetry 3 1
        (fun _ => (Except.error (UpErr.status 404) : Except UpErr Unit)) =
      ⟨1, [], .error (.bare (.status 404))⟩ :=
  nonretryable_fails_immediately 3 1 404 _ (by decide) rfl

/-- C3, counterexample. With `max_retries = 1` and the upstream returning
500 on every attempt, the caller receives the last underlying status
error itself, re-raised bare — not a `RetriesExhausted` wrapper, which
contradicts the claim (no such wrapper exists in the code). -/
theorem exhaustion_surfaces_bare_error_cex :
    (makeRequestWithRetry 1 1
        (fun _ => (Except.error (UpErr.status 500) : Except UpErr Unit))).result =
      .error (.bare (.status 500)) ∧
    (makeRequestWithRetry 1 1
        (fun _ => (Except.error (UpErr.status 500) : Except UpErr Unit))).result ≠
      .error (.retriesExhausted (.status 500)) :=
  ⟨rfl, fun h => by
    rw [show (makeRequestWithRetry 1 1
        (fun _ => (Except.error (UpErr.status 500) : Except UpErr Unit))).result =
      .error (.bare (.status 500)) from rfl] at h
    simp at h⟩

/-- C3, amended. When the retry budget is exhausted (every one of the
`max_retries + 1` attempts fails with a retryable error), the caller
receives the last underlying error itself, bare: the loop re-raises the
final exception (client.py line 126) and never wraps it. -/
theorem exhaustion_surfaces_last_error_bare {α : Type} (N d : Nat)
    (env : Nat → Except UpErr α)
    (h : ∀ i, isRetryableFailure (env i) = true) :
    (makeRequestWithRetry N d env).result =
      .error (.bare (failureErr (env N))) := by
  have := retryStep_exhaust N d env h N 0 (by omega)
  rw [makeRequestWithRetry, this]

theorem exhaustion_surfaces_last_error_bare_witness :
    (makeRequestWithRetry 2 1
        (fun _ => (Except.error (UpErr.status 500) : Except UpErr Unit))).result =
      .error (.bare (.status 500)) :=
  exhaustion_surfaces_last_error_bare 2 1
    (fun _ => (Except.error (UpErr.status 500) : Except UpErr Unit))
    (fun _ => rfl)

/-! ## Query parameters and credential injection (`client.py` lines 71-83,
138-162, 252-302) -/

/-- A query-parameter value: callers pass strings (the filters) and
integers (`offset`, `limit`). -/
inductive ParamVal where
  | str (s : String)
  | int (n : Int)
deriving DecidableEq, Repr

/-- Python dict lookup `d[k]` / `d.get(k)` on an association list: the
first (and in a real dict only) binding of `k`. -/
def dictGet {β : Type} (d : List (String × β)) (k : String) : Option β :=
  match d with
  | [] => none
  | (k', v) :: rest => if k' == k then some v else dictGet rest k

/-- Python dict assignment `d[k] = v`: an existing binding of `k` is
updated in place (keeping its position), a fresh key is appended at the
end of the insertion order. -/
def dictSet {β : Type} (d : List (String × β)) (k : String) (v : β) :
    List (String × β) :=
  if d.any (fun p => p.1 == k) then
    d.map (fun p => if p.1 == k then (k, v) else p)
  else
    d ++ [(k, v)]

/-- `_add_api_key` (client.py lines 71-83): `params = params or {}` (a
`None` or empty dict is replaced by a fresh empty dict), then
`params['api-key'] = self.api_key`. -/
def addApiKey (apiKey : String) (params : Option (List (String × ParamVal))) :
    List (String × ParamVal) :=
  let d := match params with
    | none => []
    | some d => if d.isEmpty then [] else d
  dictSet d "api-key" (.str apiKey)

/-- The query parameters `DataGovClient.get` sends upstream (client.py
line 153: `params = self._add_api_key(params)`, passed to
`_make_request_with_retry` at line 158). -/
def getSentParams (apiKey : String)
    (params : Option (List (String × ParamVal))) : List (String × ParamVal) :=
  addApiKey apiKey params

/-- The query parameters `DataGovClient.post` sends upstream (client.py
line 180). -/
def postSentParams (apiKey : String)
    (params : Option (List (String × ParamVal))) : List (String × ParamVal) :=
  addApiKey apiKey params

/-- The query parameters `DataGovClient.put` sends upstream (client.py
line 203). -/
def putSentParams (apiKey : String)
    (params : Option (List (String × ParamVal))) : List (String × ParamVal) :=
  addApiKey apiKey params

/-- The query parameters `DataGovClient.delete` sends upstream (client.py
line 225). -/
def deleteSentParams (apiKey : String)
    (params : Option (List (String × ParamVal))) : List (String × ParamVal) :=
  addApiKey apiKey params

/-- Frame model of `_add_api_key`'s reference semantics: `params or {}`
evaluates to the caller's own dict object exactly when that object is
truthy (not `None` and non-empty); only then does
`params['api-key'] = ...` mutate the caller's dict. -/
def addApiKeyMutatesCaller (params : Option (List (String × ParamVal))) : Bool :=
  match params with
  | none => false
  | some d => !d.isEmpty

/-- The caller's own dict after `_add_api_key` ran on it: mutated in
place when it was non-empty (Python `params or {}` returned the same
object), untouched when it was empty (a fresh dict was used instead). -/
def callerParamsAfter (apiKey : String)
    (params : Option (List (String × ParamVal))) :
    Option (List (String × ParamVal)) :=
  match params with
  | none => none
  | some d => if d.isEmpty then some d else some (dictSet d "api-key" (.str apiKey))

/-- The optional filters accepted by `get_mandi_prices` (client.py
lines 252-261); `none` models an argument left at its `None` default. -/
structure MandiFilters where
  state : Option String := none
  district : Option String := none
  market : Option String := none
  commodity : Option String := none
  variety : Option String := none
  grade : Option String := none

/-- Python truthiness of an optional string: `None` and `""` are falsy. -/
def truthyStr : Option String → Bool
  | none => false
  | some s => !(s == "")

/-- One conditional filter assignment of `get_mandi_prices`
(client.py lines 289-300), e.g. `if state: params['filters[state.keyword]']
= state`.  Each key below is a distinct literal absent from the initial
dict, so the dict assignment is an append of at most one binding. -/
def optFilter (key : String) (v : Option String) : List (String × ParamVal) :=
  match v with
  | some s => if s == "" then [] else [(key, .str s)]
  | none => []

/-- The query parameters built by `get_mandi_prices` (client.py
lines 281-300): `format`, `offset`, `limit` always, then one parameter per
truthy filter — `filters[state.keyword]` for the state (the upstream
convention is inconsistent for that one field) and `filters[<name>]` for
the rest. -/
def mandiParams (format : String) (offset limit : Int) (f : MandiFilters) :
    List (String × ParamVal) :=
  [("format", .str format), ("offset", .int offset), ("limit", .int limit)]
    ++ optFilter "filters[state.keyword]" f.state
    ++ optFilter "filters[district]" f.district
    ++ optFilter "filters[market]" f.market
    ++ optFilter "filters[commodity]" f.commodity
    ++ optFilter "filters[variety]" f.variety
    ++ optFilter "filters[grade]" f.grade

/-- How many parameters a query carries under a given key. -/
def countKey (d : List (String × ParamVal)) (k : String) : Nat :=
  (d.filter (fun p => p.1 == k)).length

theorem countKey_append (a b : List (String × ParamVal)) (k : String) :
    countKey (a ++ b) k = countKey a k + countKey b k := by
  simp [countKey, List.filter_append]

theorem countKey_nil (k : String) : countKey [] k = 0 := rfl

theorem countKey_cons (k0 : String) (v0 : ParamVal)
    (rest : List (String × ParamVal)) (k : String) :
    countKey ((k0, v0) :: rest) k =
      (if k0 == k then 1 else 0) + countKey rest k := by
  by_cases h : k0 == k <;> simp [countKey, List.filter_cons, h, Nat.add_comm]

theorem countKey_optFilter (k k' : String) (v : Option String) :
    countKey (optFilter k v) k' =
      if k == k' then (if truthyStr v then 1 else 0) else 0 := by
  cases v with
  | none => simp [optFilter, truthyStr, countKey]
  | some s =>
    by_cases h : s == ""
    · simp [optFilter, truthyStr, h, countKey]
    · by_cases hk : k == k' <;>
        simp [optFilter, truthyStr, h, countKey, hk]

theorem dictGet_append {β : Type} (a b : List (String × β)) (k : String) :
    dictGet (a ++ b) k = (dictGet a k).orElse (fun _ => dictGet b k) := by
  induction a with
  | nil => simp [dictGet]
  | cons p rest ih =>
    obtain ⟨k', v⟩ := p
    by_cases h : k' == k
    · simp [dictGet, h]
    · simp [dictGet, h, ih]

theorem optFilter_head (k : String) (v : Option String) :
    (optFilter k v).head?.map Prod.snd =
      match v with
      | none => none
      | some s => if s == "" then none else some (ParamVal.str s) := by
  cases v with
  | none => rfl
  | some s => by_cases h : s == "" <;> simp [optFilter, h]

theorem dictGet_optFilter (k k' : String) (v : Option String) :
    dictGet (optFilter k v) k' =
      if k == k' then (optFilter k v).head?.map Prod.snd else none := by
  cases v with
  | none => simp [optFilter, dictGet]
  | some s =>
    by_cases h : s == ""
    · simp [optFilter, h, dictGet]
    · by_cases hk : k == k' <;>
        simp [optFilter, h, dictGet, hk]

/-- C6. In the mandi-price query: `format`, `offset` and `limit` are
always present (exactly once); each truthy filter contributes exactly one
parameter, under `filters[state.keyword]` for the state and
`filters[<name>]` for the other five, carrying the filter string; an
absent (`None`) or empty-string filter contributes no parameter at all. -/
theorem mandi_params_filters (format : String) (offset limit : Int)
    (f : MandiFilters) :
    countKey (mandiParams format offset limit f) "format" = 1 ∧
    countKey (mandiParams format offset limit f) "offset" = 1 ∧
    countKey (mandiParams format offset limit f) "limit" = 1 ∧
    (countKey (mandiParams format offset limit f) "filters[state.keyword]"
        = (if truthyStr f.state then 1 else 0) ∧
      dictGet (mandiParams format offset limit f) "filters[state.keyword]"
        = (match f.state with
           | none => none
           | some s => if s == "" then none else some (ParamVal.str s))) ∧
    (countKey (mandiParams format offset limit f) "filters[district]"
        = (if truthyStr f.district then 1 else 0) ∧
      dictGet (mandiParams format offset limit f) "filters[district]"
        = (match f.district with
           | none => none
           | some s => if s == "" then none else some (ParamVal.str s))) ∧
    (countKey (mandiParams format offset limit f) "filters[market]"
        = (if truthyStr f.market then 1 else 0) ∧
      dictGet (mandiParams format offset limit f) "filters[market]"
        = (match f.market with
           | none => none
           | some s => if s == "" then none else some (ParamVal.str s))) ∧
    (countKey (mandiParams format offset limit f) "filters[commodity]"
        = (if truthyStr f.commodity then 1 else 0) ∧
      dictGet (mandiParams format offset limit f) "filters[commodity]"
        = (match f.commodity with
           | none => none
           | some s => if s == "" then none else some (ParamVal.str s))) ∧
    (countKey (mandiParams format offset limit f) "filters[variety]"
        = (if truthyStr f.variety then 1 else 0) ∧
      dictGet (mandiParams format offset limit f) "filters[variety]"
        = (match f.variety with
           | none => none
           | some s => if s == "" then none else some (ParamVal.str s))) ∧
    (countKey (mandiParams format offset limit f) "filters[grade]"
        = (if truthyStr f.grade then 1 else 0) ∧
      dictGet (mandiParams format offset limit f) "filters[grade]"
        = (match f.grade with
           | none => none
           | some s => if s == "" then none else some (ParamVal.str s))) := by
  refine ⟨?_, ?_, ?_, ⟨?_, ?_⟩, ⟨?_, ?_⟩, ⟨?_, ?_⟩, ⟨?_, ?_⟩, ⟨?_, ?_⟩, ⟨?_, ?_⟩⟩ <;>
    simp [mandiParams, countKey_append, countKey_cons, countKey_nil,
      countKey_optFilter, dictGet_append, dictGet_optFilter, optFilter_head,
      dictGet]


theorem dictGet_eq_none_of_not_any {β : Type} (d : List (String × β))
    (k : String) (h : d.any (fun p => p.1 == k) = false) :
    dictGet d k = none := by
  induction d with
  | nil => rfl
  | cons p rest ih =>
    obtain ⟨k', v⟩ := p
    simp only [List.any_cons, Bool.or_eq_false_iff] at h
    simp [dictGet, h.1, ih h.2]

theorem dictGet_replace {β : Type} (d : List (String × β)) (k : String) (v : β)
    (h : d.any (fun p => p.1 == k) = true) :
    dictGet (d.map (fun p => if p.1 == k then (k, v) else p)) k = some v := by
  induction d with
  | nil => simp at h
  | cons p rest ih =>
    obtain ⟨k', v'⟩ := p
    simp only [List.map_cons]
    by_cases hk : (k' == k) = true
    · rw [show (if ((k', v').1 == k) = true then (k, v) else (k', v')) = (k, v)
            from by simp [hk]]
      simp only [dictGet]
      rw [if_pos (by simp)]
    · rw [show (if ((k', v').1 == k) = true then (k, v) else (k', v')) = (k', v')
            from by simp [hk]]
      simp only [dictGet]
      rw [if_neg (by simpa using hk)]
      simp only [List.any_cons] at h
      rw [show ((k', v').1 == k) = false from by simpa using hk] at h
      simp only [Bool.false_or] at h
      exact ih h

theorem dictGet_map_replace {β : Type} (d : List (String × β))
    (k : String) (v : β) (k' : String) (h : (k == k') = false) :
    dictGet (d.map (fun p => if p.1 == k then (k, v) else p)) k' =
      dictGet d k' := by
  induction d with
  | nil => rfl
  | cons p rest ih =>
    obtain ⟨a, b⟩ := p
    simp only [List.map_cons]
    by_cases ha : (a == k) = true
    · have ha' : a = k := by simpa using ha
      subst ha'
      rw [show (if ((a, b).1 == a) = true then (a, v) else (a, b)) = (a, v)
            from by simp]
      simp only [dictGet]
      rw [if_neg (by simpa using h), if_neg (by simpa using h)]
      exact ih
    · rw [show (if ((a, b).1 == k) = true then (k, v) else (a, b)) = (a, b)
            from by simp [ha]]
      simp only [dictGet]
      by_cases hak : (a == k') = true
      · rw [if_pos hak, if_pos hak]
      · rw [if_neg (by simpa using hak), if_neg (by simpa using hak), ih]

/-- `d[k] = v` makes a later `d[k]` read back exactly `v`. -/
theorem dictGet_dictSet_self {β : Type} (d : List (String × β)) (k : String)
    (v : β) : dictGet (dictSet d k v) k = some v := by
  by_cases h : d.any (fun p => p.1 == k) = true
  · rw [dictSet, if_pos h]
    exact dictGet_replace d k v h
  · rw [dictSet, if_neg h, dictGet_append,
      dictGet_eq_none_of_not_any d k (Bool.eq_false_iff.mpr h)]
    simp [dictGet, Option.orElse]

/-- `d[k] = v` leaves every other key's binding unchanged. -/
theorem dictGet_dictSet_ne {β : Type} (d : List (String × β)) (k k' : String)
    (v : β) (h : (k == k') = false) :
    dictGet (dictSet d k v) k' = dictGet d k' := by
  by_cases hany : d.any (fun p => p.1 == k) = true
  · rw [dictSet, if_pos hany]
    exact dictGet_map_replace d k v k' h
  · rw [dictSet, if_neg hany, dictGet_append]
    cases hd : dictGet d k' with
    | some w => rfl
    | none =>
      simp only [Option.orElse, dictGet]
      rw [if_neg (by simpa using h)]

/-- C7. Every public client operation (`get`, `post`, `put`, `delete`)
sends the configured API key upstream under the fixed query-parameter key
`api-key`, whatever the caller supplied — in particular a caller-supplied
binding of `api-key` is overwritten. -/
theorem api_key_always_injected (apiKey : String)
    (params : Option (List (String × ParamVal))) :
    dictGet (getSentParams apiKey params) "api-key" = some (.str apiKey) ∧
    dictGet (postSentParams apiKey params) "api-key" = some (.str apiKey) ∧
    dictGet (putSentParams apiKey params) "api-key" = some (.str apiKey) ∧
    dictGet (deleteSentParams apiKey params) "api-key" = some (.str apiKey) := by
  have base : dictGet (addApiKey apiKey params) "api-key" =
      some (ParamVal.str apiKey) := by
    rw [addApiKey.eq_def]
    exact dictGet_dictSet_self _ "api-key" (ParamVal.str apiKey)
  exact ⟨base, base, base, base⟩

/-- C10, counterexample. A caller-supplied *empty* params dict is not
mutated: `params or {}` replaces a falsy (empty) dict by a fresh one, so
after the call the caller's own dict still has no `api-key` entry — even
though the parameters actually sent upstream do. -/
theorem add_api_key_empty_dict_not_mutated_cex :
    addApiKeyMutatesCaller (some []) = false ∧
    callerParamsAfter "KEY" (some []) = some [] ∧
    dictGet ([] : List (String × ParamVal)) "api-key" = none ∧
    dictGet (addApiKey "KEY" (some [])) "api-key" = some (.str "KEY") :=
  ⟨rfl, rfl, rfl, rfl⟩

/-- C10, amended. For every *non-empty* caller-supplied params dict the
claim holds: `_add_api_key` mutates the caller's own dict in place
(Python `params or {}` yields the same object), so after the call the
caller's dict carries the injected credential under `api-key`.  An empty
caller dict is the one exception: it is replaced by a fresh dict and left
untouched. -/
theorem add_api_key_mutates_nonempty_caller_dict (apiKey : String)
    (d : List (String × ParamVal)) (h : d ≠ []) :
    addApiKeyMutatesCaller (some d) = true ∧
    callerParamsAfter apiKey (some d) = some (addApiKey apiKey (some d)) ∧
    dictGet (addApiKey apiKey (some d)) "api-key" = some (.str apiKey) := by
  have hne : d.isEmpty = false := by
    cases d with
    | nil => exact absurd rfl h
    | cons p rest => rfl
  have haddeq : addApiKey apiKey (some d) =
      dictSet d "api-key" (ParamVal.str apiKey) := by
    rw [addApiKey.eq_def]
    simp [hne]
  refine ⟨by simp [addApiKeyMutatesCaller, hne], ?_, ?_⟩
  · simp [callerParamsAfter, hne, haddeq]
  · rw [haddeq]
    exact dictGet_dictSet_self _ "api-key" (ParamVal.str apiKey)

theorem add_api_key_mutates_nonempty_caller_dict_witness :
    addApiKeyMutatesCaller (some [("limit", ParamVal.int 5)]) = true ∧
    callerParamsAfter "KEY" (some [("limit", ParamVal.int 5)]) =
      some (addApiKey "KEY" (some [("limit", ParamVal.int 5)])) ∧
    dictGet (addApiKey "KEY" (some [("limit", ParamVal.int 5)])) "api-key" =
      some (.str "KEY") :=
  add_api_key_mutates_nonempty_caller_dict "KEY" [("limit", ParamVal.int 5)]
    (by simp)

/-! ## The Redis cache manager (`src/cache/redis.py`)

Values stored by callers are Python values; non-`str`/`bytes` values are
serialized with `json.dumps` on `set` and text that looks like JSON is
decoded with `json.loads` on `get`.  The two stdlib codecs are modelled
below.  `loads` accepts the full stdlib number grammar — integers (with
the no-leading-zero rule), fractions, exponents, and the default-mode
constants `NaN`, `Infinity` and `-Infinity` — and, as strict-mode
`json.loads` does, rejects a raw control character inside a string
literal.  A non-integral number is carried exactly as the scaled decimal
`sig × 10 ^ exp` (`JVal.flt`): Python holds it as an IEEE-754 float,
whose arithmetic and shortest-repr formatting are outside this embedding,
so `dumps` renders a `flt` in the explicit-exponent JSON form (`15e-1`
where Python would print `1.5`) — both texts denote the same number and
both re-parse to the same `flt`.  One further deliberate simplification:
`dumps` writes non-ASCII characters literally rather than
`\uXXXX`-escaping them (`ensure_ascii`) — both encodings denote the same
characters and both begin with the same first byte for every value
shape. -/

/-- A JSON value (`json.dumps` input / `json.loads` output).  `num` is an
`int`-valued number; `flt` is a non-integral number token, carried
exactly as `sig × 10 ^ exp` (Python stores a float — only the textual
grammar is modelled); `nan` and `inf` are the default-mode constants
`NaN`, `Infinity` and `-Infinity`. -/
inductive JVal where
  | null
  | bool (b : Bool)
  | num (n : Int)
  | flt (sig : Int) (exp : Int)
  | nan
  | inf (neg : Bool)
  | str (s : String)
  | arr (elems : List JVal)
  | obj (members : List (String × JVal))

/-- JSON whitespace. -/
def isWsChar (c : Char) : Bool :=
  c == ' ' || c == '\t' || c == '\n' || c == '\r'

def isDigitChar (c : Char) : Bool :=
  '0' ≤ c && c ≤ '9'

/-- Drop leading JSON whitespace. -/
def dropWs : List Char → List Char
  | [] => []
  | c :: cs => if isWsChar c then dropWs cs else c :: cs

def digitOfNat (d : Nat) : Char :=
  Char.ofNat ('0'.toNat + d)

/-- Decimal digits of `n` (most significant first), prepended to `acc`. -/
def natDigits (n : Nat) (acc : List Char) : List Char :=
  if n < 10 then digitOfNat n :: acc
  else natDigits (n / 10) (digitOfNat (n % 10) :: acc)
termination_by n
decreasing_by exact Nat.div_lt_self (by omega) (by omega)

/-- `str(i)` / JSON rendering of an integer: optional minus sign, then
decimal digits. -/
def intChars (i : Int) : List Char :=
  (if i < 0 then ['-'] else []) ++ natDigits i.natAbs []

def hexDigitOf (n : Nat) : Char :=
  if n < 10 then digitOfNat n else Char.ofNat ('a'.toNat + (n - 10))

/-- `json.dumps` escaping of one string character: the two-character
shortcuts of the escape table, `\u00XX` for the remaining control
characters, and the character itself otherwise. -/
def escapeChar (c : Char) : List Char :=
  if c == '\\' then ['\\', '\\']
  else if c == '"' then ['\\', '"']
  else if c == '\x08' then ['\\', 'b']
  else if c == '\x0c' then ['\\', 'f']
  else if c == '\n' then ['\\', 'n']
  else if c == '\r' then ['\\', 'r']
  else if c == '\t' then ['\\', 't']
  else if c.toNat < 0x20 then
    ['\\', 'u', '0', '0', hexDigitOf (c.toNat / 16), hexDigitOf (c.toNat % 16)]
  else [c]

def escapeList : List Char → List Char
  | [] => []
  | c :: cs => escapeChar c ++ escapeList cs

/-- A JSON string literal: quote, escaped characters, quote. -/
def strChars (s : String) : List Char :=
  '"' :: (escapeList s.data ++ ['"'])

mutual
/-- `json.dumps` with its default separators `", "` and `": "`. -/
def dumpChars : JVal → List Char
  | .null => "null".data
  | .bool true => "true".data
  | .bool false => "false".data
  | .num n => intChars n
  | .flt sig ex => intChars sig ++ 'e' :: intChars ex
  | .nan => "NaN".data
  | .inf true => "-Infinity".data
  | .inf false => "Infinity".data
  | .str s => strChars s
  | .arr es => '[' :: (dumpArr es ++ [']'])
  | .obj ms => '{' :: (dumpObj ms ++ ['}'])
def dumpArr : List JVal → List Char
  | [] => []
  | e :: es => dumpChars e ++ dumpArrRest es
def dumpArrRest : List JVal → List Char
  | [] => []
  | e :: es => ',' :: ' ' :: (dumpChars e ++ dumpArrRest es)
def dumpObj : List (String × JVal) → List Char
  | [] => []
  | (k, v) :: ms => strChars k ++ ':' :: ' ' :: (dumpChars v ++ dumpObjRest ms)
def dumpObjRest : List (String × JVal) → List Char
  | [] => []
  | (k, v) :: ms =>
    ',' :: ' ' :: (strChars k ++ ':' :: ' ' :: (dumpChars v ++ dumpObjRest ms))
end

/-- `json.dumps` as a `String`. -/
def dumpsString (j : JVal) : String := String.mk (dumpChars j)

def hexDigitVal (c : Char) : Option Nat :=
  let n := c.toNat
  if 48 ≤ n && n ≤ 57 then some (n - 48)        -- '0'..'9'
  else if 97 ≤ n && n ≤ 102 then some (n - 87)  -- 'a'..'f'
  else if 65 ≤ n && n ≤ 70 then some (n - 55)   -- 'A'..'F'
  else none

def unescapeChar (e : Char) : Option Char :=
  if e == '"' then some '"'
  else if e == '\\' then some '\\'
  else if e == '/' then some '/'
  else if e == 'b' then some '\x08'
  else if e == 'f' then some '\x0c'
  else if e == 'n' then some '\n'
  else if e == 'r' then some '\r'
  else if e == 't' then some '\t'
  else none

/-- Parse a JSON string body (after the opening quote), returning the
unescaped content and the remainder after the closing quote.
Strict-mode `json.loads` (the default) rejects a raw control character
inside a string literal, so an unescaped character below `0x20` fails
the parse. -/
def parseStrBody : List Char → Option (List Char × List Char)
  | [] => none
  | '"' :: rest => some ([], rest)
  | '\\' :: 'u' :: a :: b :: c :: d :: rest =>
    match hexDigitVal a, hexDigitVal b, hexDigitVal c, hexDigitVal d with
    | some va, some vb, some vc, some vd =>
      (parseStrBody rest).map
        (fun p => (Char.ofNat (((va * 16 + vb) * 16 + vc) * 16 + vd) :: p.1, p.2))
    | _, _, _, _ => none
  | '\\' :: e :: rest =>
    match unescapeChar e with
    | some c => (parseStrBody rest).map (fun p => (c :: p.1, p.2))
    | none => none
  | c :: rest =>
    if c.toNat < 0x20 then none
    else (parseStrBody rest).map (fun p => (c :: p.1, p.2))

def takeDigits : List Char → List Char × List Char
  | [] => ([], [])
  | c :: cs =>
    if isDigitChar c then
      let p := takeDigits cs
      (c :: p.1, p.2)
    else ([], c :: cs)

/-- The numeric value of a decimal digit character (`'0'.toNat = 48`). -/
def digitVal (c : Char) : Nat := c.toNat - 48

def digitsToNat (ds : List Char) : Nat :=
  ds.foldl (fun acc c => acc * 10 + digitVal c) 0

/-- Leading minus sign, if any. -/
def splitNeg : List Char → Bool × List Char
  | '-' :: r => (true, r)
  | cs => (false, cs)

/-- The integer part of the stdlib number grammar: `0`, or a nonzero
digit followed by a digit run — a leading zero ends the part at once. -/
def parseIntPart : List Char → Option (Nat × List Char)
  | [] => none
  | c :: rest =>
    if c == '0' then some (0, rest)
    else if isDigitChar c then
      some (digitsToNat (c :: (takeDigits rest).1), (takeDigits rest).2)
    else none

/-- The optional fraction part `.` + digits; a `.` not followed by a
digit is not part of the number. -/
def parseFrac : List Char → List Char × List Char
  | [] => ([], [])
  | c :: rest =>
    if c == '.' then
      match takeDigits rest with
      | ([], _) => ([], c :: rest)
      | (ds, r) => (ds, r)
    else ([], c :: rest)

/-- The optional sign of an exponent. -/
def parseExpSign : List Char → Bool × List Char
  | [] => (false, [])
  | c :: r =>
    if c == '+' then (false, r)
    else if c == '-' then (true, r)
    else (false, c :: r)

/-- The digit run of an exponent; with no digits the whole exponent part
is not part of the number, so `orig` (the `e` and any sign) is
restored. -/
def parseExpDigits (sgn : Bool) (orig cs : List Char) :
    Option Int × List Char :=
  match takeDigits cs with
  | ([], _) => (none, orig)
  | (ds, r) =>
    (some (if sgn then -(digitsToNat ds : Int) else (digitsToNat ds : Int)), r)

/-- The optional exponent part: `e`/`E`, an optional sign, digits. -/
def parseExp : List Char → Option Int × List Char
  | [] => (none, [])
  | c :: rest =>
    if c == 'e' || c == 'E' then
      match parseExpSign rest with
      | (sgn, r1) => parseExpDigits sgn (c :: rest) r1
    else (none, c :: rest)

/-- A number token: optional minus sign, integer part, optional fraction,
optional exponent.  With neither fraction nor exponent present the token
is a Python `int`; otherwise Python builds a float, carried here as the
exact scaled decimal. -/
def parseNumberToken (cs : List Char) : Option (JVal × List Char) :=
  match splitNeg cs with
  | (neg, cs1) =>
    match parseIntPart cs1 with
    | none => none
    | some (ip, r1) =>
      match parseFrac r1 with
      | (frac, r2) =>
        match parseExp r2 with
        | (ex, r3) =>
          match frac, ex with
          | [], none =>
            some (.num (if neg then -(ip : Int) else (ip : Int)), r3)
          | _, _ =>
            some (.flt
              (if neg then
                -((ip : Int) * (10 : Int) ^ frac.length
                  + (digitsToNat frac : Int))
              else
                (ip : Int) * (10 : Int) ^ frac.length
                  + (digitsToNat frac : Int))
              ((ex.getD 0) - (frac.length : Int)), r3)

/-- The number branch of the scanner: the default-mode constants `NaN`,
`Infinity` and `-Infinity` — matched by literal slice comparison, as the
stdlib scanner does — or a number token. -/
def parseNum (cs : List Char) : Option (JVal × List Char) :=
  if cs.take 3 = ['N', 'a', 'N'] then some (.nan, cs.drop 3)
  else if cs.take 8 = ['I', 'n', 'f', 'i', 'n', 'i', 't', 'y'] then
    some (.inf false, cs.drop 8)
  else if cs.take 9 = ['-', 'I', 'n', 'f', 'i', 'n', 'i', 't', 'y'] then
    some (.inf true, cs.drop 9)
  else parseNumberToken cs

mutual
/-- `json.loads`, fuel-indexed recursive-descent value parser. -/
def parseVal : Nat → List Char → Option (JVal × List Char)
  | 0, _ => none
  | fuel + 1, cs =>
    match cs with
    | 'n' :: 'u' :: 'l' :: 'l' :: r => some (.null, r)
    | 't' :: 'r' :: 'u' :: 'e' :: r => some (.bool true, r)
    | 'f' :: 'a' :: 'l' :: 's' :: 'e' :: r => some (.bool false, r)
    | '"' :: r =>
      (parseStrBody r).map (fun p => (.str (String.mk p.1), p.2))
    | '[' :: r =>
      (match dropWs r with
       | ']' :: r' => some (.arr [], r')
       | r' => (parseArrItems fuel r').map (fun p => (.arr p.1, p.2)))
    | '{' :: r =>
      (match dropWs r with
       | '}' :: r' => some (.obj [], r')
       | r' => (parseObjItems fuel r').map (fun p => (.obj p.1, p.2)))
    | _ => parseNum cs
/-- One-or-more comma-separated array items, up to the closing bracket. -/
def parseArrItems : Nat → List Char → Option (List JVal × List Char)
  | 0, _ => none
  | fuel + 1, cs =>
    match parseVal fuel cs with
    | none => none
    | some (v, r) =>
      match dropWs r with
      | ',' :: r' =>
        (parseArrItems fuel (dropWs r')).map (fun p => (v :: p.1, p.2))
      | ']' :: r' => some ([v], r')
      | _ => none
/-- One-or-more comma-separated object members, up to the closing brace. -/
def parseObjItems : Nat → List Char → Option (List (String × JVal) × List Char)
  | 0, _ => none
  | fuel + 1, cs =>
    match cs with
    | '"' :: r =>
      (match parseStrBody r with
       | none => none
       | some (kcs, r1) =>
         match dropWs r1 with
         | ':' :: r2 =>
           (match parseVal fuel (dropWs r2) with
            | none => none
            | some (v, r3) =>
              match dropWs r3 with
              | ',' :: r4 =>
                (parseObjItems fuel (dropWs r4)).map
                  (fun p => ((String.mk kcs, v) :: p.1, p.2))
              | '}' :: r4 => some ([(String.mk kcs, v)], r4)
              | _ => none)
         | _ => none)
    | _ => none
end

/-- `json.loads`: parse a complete document, allowing surrounding
whitespace, rejecting trailing garbage. -/
def loads (s : String) : Option JVal :=
  let cs := dropWs s.data
  match parseVal (cs.length + 1) cs with
  | some (j, r) => if dropWs r = [] then some j else none
  | none => none

/-! ### Round-trip of the integer codec -/

theorem digit_props : ∀ d, d < 10 →
    isDigitChar (digitOfNat d) = true ∧ digitVal (digitOfNat d) = d := by
  decide

theorem natDigits_step (n : Nat) (acc : List Char) :
    natDigits n acc =
      if n < 10 then digitOfNat n :: acc
      else natDigits (n / 10) (digitOfNat (n % 10) :: acc) := by
  rw [natDigits]

theorem natDigits_acc (n : Nat) : ∀ acc : List Char,
    natDigits n acc = natDigits n [] ++ acc := by
  induction n using Nat.strongRecOn with
  | _ n ih =>
    intro acc
    rw [natDigits_step n acc, natDigits_step n []]
    by_cases h : n < 10
    · simp [h]
    · rw [if_neg h, if_neg h, ih (n / 10) (Nat.div_lt_self (by omega) (by omega)),
        ih (n / 10) (Nat.div_lt_self (by omega) (by omega)) [digitOfNat (n % 10)]]
      simp

theorem natDigits_unfold (n : Nat) :
    natDigits n [] =
      (if n < 10 then [] else natDigits (n / 10) []) ++ [digitOfNat (n % 10)] := by
  rw [natDigits_step]
  by_cases h : n < 10
  · simp [h, Nat.mod_eq_of_lt h]
  · rw [if_neg h, if_neg h, natDigits_acc]

theorem natDigits_ne_nil (n : Nat) : natDigits n [] ≠ [] := by
  rw [natDigits_unfold]
  simp

theorem natDigits_all_digits (n : Nat) :
    ∀ c ∈ natDigits n [], isDigitChar c = true := by
  induction n using Nat.strongRecOn with
  | _ n ih =>
    intro c hc
    rw [natDigits_unfold] at hc
    rcases List.mem_append.mp hc with h | h
    · by_cases h10 : n < 10
      · simp [h10] at h
      · rw [if_neg h10] at h
        exact ih (n / 10) (Nat.div_lt_self (by omega) (by omega)) c h
    · rw [List.mem_singleton] at h
      subst h
      exact (digit_props (n % 10) (Nat.mod_lt _ (by omega))).1

theorem digitsToNat_append_digit (ds : List Char) (c : Char) :
    digitsToNat (ds ++ [c]) = digitsToNat ds * 10 + digitVal c := by
  rw [digitsToNat, digitsToNat, List.foldl_append, List.foldl_cons,
    List.foldl_nil]

theorem digitsToNat_natDigits (n : Nat) : digitsToNat (natDigits n []) = n := by
  induction n using Nat.strongRecOn with
  | _ n ih =>
    rw [natDigits_unfold, digitsToNat_append_digit,
      (digit_props (n % 10) (Nat.mod_lt _ (by omega))).2]
    by_cases h : n < 10
    · rw [if_pos h]
      show digitsToNat [] * 10 + n % 10 = n
      rw [show digitsToNat [] = 0 from rfl]
      omega
    · rw [if_neg h, ih (n / 10) (Nat.div_lt_self (by omega) (by omega))]
      omega

theorem natDigits_head (n : Nat) :
    ∃ c t, natDigits n [] = c :: t ∧ isDigitChar c = true := by
  cases h : natDigits n [] with
  | nil => exact absurd h (natDigits_ne_nil n)
  | cons c t =>
    exact ⟨c, t, rfl, natDigits_all_digits n c (h ▸ List.mem_cons_self ..)⟩

/-- The remainder after a number may not begin with a digit (nothing else
can extend a digit run in this integer grammar). -/
def noDigitHead : List Char → Bool
  | [] => true
  | c :: _ => !isDigitChar c

theorem takeDigits_stop (cs : List Char) (h : noDigitHead cs = true) :
    takeDigits cs = ([], cs) := by
  cases cs with
  | nil => rfl
  | cons c t =>
    simp only [noDigitHead, Bool.not_eq_true'] at h
    simp [takeDigits, h]

theorem takeDigits_run (ds tl : List Char)
    (hds : ∀ c ∈ ds, isDigitChar c = true) (htl : noDigitHead tl = true) :
    takeDigits (ds ++ tl) = (ds, tl) := by
  induction ds with
  | nil =>
    rw [List.nil_append, takeDigits_stop tl htl]
  | cons c0 ds0 ih =>
    rw [List.cons_append, takeDigits,
      if_pos (hds c0 (List.mem_cons_self ..)),
      ih (fun x hx => hds x (List.mem_cons_of_mem _ hx))]

theorem splitNeg_cons_ne (c : Char) (t : List Char) (h : c ≠ '-') :
    splitNeg (c :: t) = (false, c :: t) := by
  rw [splitNeg.eq_def]
  split
  · rename_i heq
    rw [List.cons.injEq] at heq
    exact absurd heq.1 h
  · rfl

theorem digit_ne_minus {c : Char} (h : isDigitChar c = true) : c ≠ '-' := by
  intro hc
  subst hc
  exact absurd h (by decide)

theorem digit_ne_char {c : Char} (h : isDigitChar c = true) {x : Char}
    (hx : isDigitChar x = false) : c ≠ x := by
  intro he
  rw [he, hx] at h
  exact Bool.noConfusion h

/-- Canonical decimal digits carry no leading zero: the head digit is
`'0'` only for the number zero itself. -/
theorem natDigits_head_zero (n : Nat) :
    ∃ c t, natDigits n [] = c :: t ∧ isDigitChar c = true ∧
      (c = '0' → n = 0) := by
  induction n using Nat.strongRecOn with
  | _ n ih =>
    by_cases h : n < 10
    · refine ⟨digitOfNat n, [], ?_, (digit_props n h).1, ?_⟩
      · rw [natDigits_step, if_pos h]
      · intro hc
        have hv : digitVal (digitOfNat n) = n := (digit_props n h).2
        rw [hc, show digitVal '0' = 0 from rfl] at hv
        exact hv.symm
    · obtain ⟨c, t, hct, hcd, h0⟩ :=
        ih (n / 10) (Nat.div_lt_self (by omega) (by omega))
      refine ⟨c, t ++ [digitOfNat (n % 10)], ?_, hcd, ?_⟩
      · rw [natDigits_unfold, if_neg h, hct]
        rfl
      · intro hc
        have := h0 hc
        omega

/-- A remainder that cannot extend a preceding number token: it begins
with no digit, no decimal point and no exponent marker.  Inside rendered
JSON the remainder head is always `','`, `']'`, `'}'` or the end of the
text. -/
def numBoundary : List Char → Bool
  | [] => true
  | c :: _ => !(isDigitChar c || c == '.' || c == 'e' || c == 'E')

theorem numBoundary_split {c : Char} {r : List Char}
    (h : numBoundary (c :: r) = true) :
    isDigitChar c = false ∧ c ≠ '.' ∧ c ≠ 'e' ∧ c ≠ 'E' := by
  simp only [numBoundary, Bool.not_eq_true', Bool.or_eq_false_iff] at h
  exact ⟨h.1.1.1, by simpa using h.1.1.2, by simpa using h.1.2,
    by simpa using h.2⟩

theorem numBoundary_noDigit (cs : List Char) (h : numBoundary cs = true) :
    noDigitHead cs = true := by
  cases cs with
  | nil => rfl
  | cons c t =>
    rw [show noDigitHead (c :: t) = !isDigitChar c from rfl,
      (numBoundary_split h).1]
    rfl

theorem noDigitHead_e (r : List Char) : noDigitHead ('e' :: r) = true := rfl

/-- `parseIntPart` on canonically rendered digits consumes exactly
them. -/
theorem parseIntPart_natDigits (n : Nat) (tl : List Char)
    (htl : noDigitHead tl = true) :
    parseIntPart (natDigits n [] ++ tl) = some (n, tl) := by
  obtain ⟨c, t, hct, hcd, h0⟩ := natDigits_head_zero n
  rw [hct, List.cons_append, parseIntPart]
  by_cases hc0 : (c == '0') = true
  · have hn : n = 0 := h0 (by simpa using hc0)
    subst hn
    have h01 : natDigits 0 [] = ['0'] := by
      rw [natDigits_step]
      rfl
    rw [h01] at hct
    rw [List.cons.injEq] at hct
    rw [if_pos hc0, ← hct.2]
    rfl
  · rw [if_neg hc0, if_pos hcd]
    have htd : takeDigits (t ++ tl) = (t, tl) :=
      takeDigits_run t tl
        (fun x hx => natDigits_all_digits n x
          (hct ▸ List.mem_cons_of_mem _ hx)) htl
    rw [htd]
    show some (digitsToNat (c :: t), tl) = some (n, tl)
    rw [← hct, digitsToNat_natDigits]

theorem parseFrac_cons_ne (c : Char) (r : List Char) (h : c ≠ '.') :
    parseFrac (c :: r) = ([], c :: r) := by
  rw [parseFrac, if_neg (by simpa using h)]

theorem parseFrac_boundary (cs : List Char) (h : numBoundary cs = true) :
    parseFrac cs = ([], cs) := by
  cases cs with
  | nil => rfl
  | cons c r => exact parseFrac_cons_ne c r (numBoundary_split h).2.1

theorem parseExp_boundary (cs : List Char) (h : numBoundary cs = true) :
    parseExp cs = (none, cs) := by
  cases cs with
  | nil => rfl
  | cons c r =>
    obtain ⟨-, -, he, hE⟩ := numBoundary_split h
    rw [parseExp, if_neg (by simp [he, hE])]

/-- An exponent marker followed by a rendered integer and a boundary
remainder parses back to that integer. -/
theorem parseExp_e_intChars (ex : Int) (rest : List Char)
    (h : numBoundary rest = true) :
    parseExp ('e' :: (intChars ex ++ rest)) = (some ex, rest) := by
  rw [parseExp, if_pos (by decide)]
  by_cases hex : ex < 0
  · have harg : intChars ex ++ rest
        = '-' :: (natDigits ex.natAbs [] ++ rest) := by
      simp [intChars, hex]
    rw [harg]
    have hsgn : parseExpSign ('-' :: (natDigits ex.natAbs [] ++ rest))
        = (true, natDigits ex.natAbs [] ++ rest) := by
      rw [parseExpSign, if_neg (by decide), if_pos (by decide)]
    rw [hsgn]
    simp only []
    rw [parseExpDigits]
    obtain ⟨c, t, hct, -⟩ := natDigits_head ex.natAbs
    have htd : takeDigits (natDigits ex.natAbs [] ++ rest)
        = (natDigits ex.natAbs [], rest) :=
      takeDigits_run _ rest (natDigits_all_digits _)
        (numBoundary_noDigit rest h)
    rw [htd, hct]
    show (some (if (true : Bool) then -(digitsToNat (c :: t) : Int)
        else (digitsToNat (c :: t) : Int)), rest) = (some ex, rest)
    rw [show (if (true : Bool) then -(digitsToNat (c :: t) : Int)
        else (digitsToNat (c :: t) : Int))
        = -(digitsToNat (c :: t) : Int) from rfl, ← hct,
      digitsToNat_natDigits, show -((ex.natAbs : Nat) : Int) = ex from by omega]
  · obtain ⟨c, t, hct, hcd⟩ := natDigits_head ex.natAbs
    have harg : intChars ex ++ rest = c :: (t ++ rest) := by
      simp [intChars, hex, hct]
    rw [harg]
    have hsgn : parseExpSign (c :: (t ++ rest)) = (false, c :: (t ++ rest)) := by
      rw [parseExpSign,
        if_neg (by simpa using digit_ne_char hcd (by decide)),
        if_neg (by simpa using digit_ne_char hcd (by decide))]
    rw [hsgn]
    simp only []
    rw [parseExpDigits]
    have htd : takeDigits (c :: (t ++ rest)) = (c :: t, rest) := by
      have hrun := takeDigits_run (c :: t) rest
        (fun x hx => natDigits_all_digits ex.natAbs x (hct ▸ hx))
        (numBoundary_noDigit rest h)
      simpa using hrun
    rw [htd]
    show (some (if (false : Bool) then -(digitsToNat (c :: t) : Int)
        else (digitsToNat (c :: t) : Int)), rest) = (some ex, rest)
    rw [show (if (false : Bool) then -(digitsToNat (c :: t) : Int)
        else (digitsToNat (c :: t) : Int))
        = (digitsToNat (c :: t) : Int) from rfl, ← hct,
      digitsToNat_natDigits, show ((ex.natAbs : Nat) : Int) = ex from by omega]

/-- `parseNumberToken` on a token with neither fraction nor exponent:
an `int`. -/
theorem parseNumberToken_num {cs cs1 r1 r2 r3 : List Char} {neg : Bool}
    {ip : Nat}
    (hsp : splitNeg cs = (neg, cs1))
    (hip : parseIntPart cs1 = some (ip, r1))
    (hf : parseFrac r1 = ([], r2))
    (he : parseExp r2 = (none, r3)) :
    parseNumberToken cs
      = some (.num (if neg then -(ip : Int) else (ip : Int)), r3) := by
  rw [parseNumberToken, hsp]
  simp only []
  rw [hip]
  simp only []
  rw [hf]
  simp only []
  rw [he]

/-- `parseNumberToken` on a token with no fraction but an exponent: a
float, carried as the scaled decimal. -/
theorem parseNumberToken_exp {cs cs1 r1 r2 r3 : List Char} {neg : Bool}
    {ip : Nat} {ev : Int}
    (hsp : splitNeg cs = (neg, cs1))
    (hip : parseIntPart cs1 = some (ip, r1))
    (hf : parseFrac r1 = ([], r2))
    (he : parseExp r2 = (some ev, r3)) :
    parseNumberToken cs
      = some (.flt (if neg then -(ip : Int) else (ip : Int)) ev, r3) := by
  rw [parseNumberToken, hsp]
  simp only []
  rw [hip]
  simp only []
  rw [hf]
  simp only []
  rw [he]
  simp only []
  cases neg <;> simp [digitsToNat]

theorem parseNumberToken_int (i : Int) (rest : List Char)
    (h : numBoundary rest = true) :
    parseNumberToken (intChars i ++ rest) = some (JVal.num i, rest) := by
  have hip := parseIntPart_natDigits i.natAbs rest (numBoundary_noDigit rest h)
  have hf := parseFrac_boundary rest h
  have he := parseExp_boundary rest h
  by_cases hi : i < 0
  · have harg : intChars i ++ rest
        = '-' :: (natDigits i.natAbs [] ++ rest) := by
      simp [intChars, hi]
    have hsp : splitNeg (intChars i ++ rest)
        = (true, natDigits i.natAbs [] ++ rest) := by
      rw [harg, splitNeg]
    rw [parseNumberToken_num hsp hip hf he]
    show some (JVal.num (-((i.natAbs : Nat) : Int)), rest)
      = some (JVal.num i, rest)
    rw [show -((i.natAbs : Nat) : Int) = i from by omega]
  · have hsp : splitNeg (intChars i ++ rest)
        = (false, natDigits i.natAbs [] ++ rest) := by
      obtain ⟨c0, t0, hnd, hc0⟩ := natDigits_head i.natAbs
      have harg : intChars i ++ rest = c0 :: (t0 ++ rest) := by
        simp [intChars, hi, hnd]
      rw [harg, splitNeg_cons_ne c0 _ (digit_ne_minus hc0), hnd]
      rfl
    rw [parseNumberToken_num hsp hip hf he]
    show some (JVal.num ((i.natAbs : Nat) : Int), rest)
      = some (JVal.num i, rest)
    rw [show ((i.natAbs : Nat) : Int) = i from by omega]

theorem parseNumberToken_flt (sig ex : Int) (rest : List Char)
    (h : numBoundary rest = true) :
    parseNumberToken (intChars sig ++ 'e' :: (intChars ex ++ rest))
      = some (JVal.flt sig ex, rest) := by
  have hip := parseIntPart_natDigits sig.natAbs ('e' :: (intChars ex ++ rest))
    (noDigitHead_e _)
  have hf := parseFrac_cons_ne 'e' (intChars ex ++ rest) (by decide)
  have he := parseExp_e_intChars ex rest h
  by_cases hi : sig < 0
  · have harg : intChars sig ++ 'e' :: (intChars ex ++ rest)
        = '-' :: (natDigits sig.natAbs [] ++ 'e' :: (intChars ex ++ rest)) := by
      simp [intChars, hi]
    have hsp : splitNeg (intChars sig ++ 'e' :: (intChars ex ++ rest))
        = (true, natDigits sig.natAbs [] ++ 'e' :: (intChars ex ++ rest)) := by
      rw [harg, splitNeg]
    rw [parseNumberToken_exp hsp hip hf he]
    show some (JVal.flt (-((sig.natAbs : Nat) : Int)) ex, rest)
      = some (JVal.flt sig ex, rest)
    rw [show -((sig.natAbs : Nat) : Int) = sig from by omega]
  · have hsp : splitNeg (intChars sig ++ 'e' :: (intChars ex ++ rest))
        = (false, natDigits sig.natAbs [] ++ 'e' :: (intChars ex ++ rest)) := by
      obtain ⟨c0, t0, hnd, hc0⟩ := natDigits_head sig.natAbs
      have harg : intChars sig ++ 'e' :: (intChars ex ++ rest)
          = c0 :: (t0 ++ 'e' :: (intChars ex ++ rest)) := by
        simp [intChars, hi, hnd]
      rw [harg, splitNeg_cons_ne c0 _ (digit_ne_minus hc0), hnd]
      rfl
    rw [parseNumberToken_exp hsp hip hf he]
    show some (JVal.flt ((sig.natAbs : Nat) : Int) ex, rest)
      = some (JVal.flt sig ex, rest)
    rw [show ((sig.natAbs : Nat) : Int) = sig from by omega]

/-- A rendered integer followed by anything is headed by `'-'` or a
digit; in the `'-'` case a digit follows at once. -/
theorem intChars_shape (i : Int) (x : List Char) :
    ∃ c0 t0, intChars i ++ x = c0 :: t0 ∧
      (c0 = '-' ∨ isDigitChar c0 = true) ∧
      (isDigitChar c0 = true ∨
        (c0 = '-' ∧ ∃ c1 t1, t0 = c1 :: t1 ∧ isDigitChar c1 = true)) := by
  by_cases hi : i < 0
  · obtain ⟨c1, t1, hnd, hc1⟩ := natDigits_head i.natAbs
    refine ⟨'-', natDigits i.natAbs [] ++ x, by simp [intChars, hi],
      Or.inl rfl, Or.inr ⟨rfl, c1, t1 ++ x, ?_, hc1⟩⟩
    rw [hnd]
    rfl
  · obtain ⟨c0, t0, hnd, hc0⟩ := natDigits_head i.natAbs
    exact ⟨c0, t0 ++ x, by simp [intChars, hi, hnd], Or.inr hc0, Or.inl hc0⟩

/-- On a head that can start neither `NaN`, `Infinity` nor `-Infinity`,
`parseNum` is the number-token parser. -/
theorem parseNum_number_input (c0 : Char) (t0 : List Char)
    (h : isDigitChar c0 = true ∨
      (c0 = '-' ∧ ∃ c1 t1, t0 = c1 :: t1 ∧ isDigitChar c1 = true)) :
    parseNum (c0 :: t0) = parseNumberToken (c0 :: t0) := by
  have h1 : ¬((c0 :: t0).take 3 = ['N', 'a', 'N']) := by
    intro hEq
    rw [List.take_succ_cons, List.cons.injEq] at hEq
    rcases h with hd | ⟨hm, -⟩
    · rw [hEq.1] at hd
      exact absurd hd (by decide)
    · rw [hEq.1] at hm
      exact absurd hm (by decide)
  have h2 : ¬((c0 :: t0).take 8 = ['I', 'n', 'f', 'i', 'n', 'i', 't', 'y']) := by
    intro hEq
    rw [List.take_succ_cons, List.cons.injEq] at hEq
    rcases h with hd | ⟨hm, -⟩
    · rw [hEq.1] at hd
      exact absurd hd (by decide)
    · rw [hEq.1] at hm
      exact absurd hm (by decide)
  have h3 : ¬((c0 :: t0).take 9
      = ['-', 'I', 'n', 'f', 'i', 'n', 'i', 't', 'y']) := by
    intro hEq
    rw [List.take_succ_cons, List.cons.injEq] at hEq
    rcases h with hd | ⟨hm, c1, t1, ht, hd1⟩
    · rw [hEq.1] at hd
      exact absurd hd (by decide)
    · have ht8 := hEq.2
      rw [ht, List.take_succ_cons, List.cons.injEq] at ht8
      rw [ht8.1] at hd1
      exact absurd hd1 (by decide)
  rw [parseNum, if_neg h1, if_neg h2, if_neg h3]

/-- The integer codec round-trip: parsing a rendered integer recovers it,
whenever the remainder cannot extend the number token. -/
theorem parseNum_int (i : Int) (rest : List Char)
    (h : numBoundary rest = true) :
    parseNum (intChars i ++ rest) = some (JVal.num i, rest) := by
  obtain ⟨c0, t0, hct, -, hdisp⟩ := intChars_shape i rest
  rw [hct, parseNum_number_input c0 t0 hdisp, ← hct]
  exact parseNumberToken_int i rest h

/-- The scaled-decimal codec round-trip: parsing a rendered `flt`
recovers it. -/
theorem parseNum_flt (sig ex : Int) (rest : List Char)
    (h : numBoundary rest = true) :
    parseNum (intChars sig ++ 'e' :: (intChars ex ++ rest))
      = some (JVal.flt sig ex, rest) := by
  obtain ⟨c0, t0, hct, -, hdisp⟩ :=
    intChars_shape sig ('e' :: (intChars ex ++ rest))
  rw [hct, parseNum_number_input c0 t0 hdisp, ← hct]
  exact parseNumberToken_flt sig ex rest h

theorem parseNum_nan (rest : List Char) :
    parseNum ('N' :: 'a' :: 'N' :: rest) = some (JVal.nan, rest) := rfl

theorem parseNum_inf (rest : List Char) :
    parseNum ('I' :: 'n' :: 'f' :: 'i' :: 'n' :: 'i' :: 't' :: 'y' :: rest)
      = some (JVal.inf false, rest) := rfl

theorem parseNum_ninf (rest : List Char) :
    parseNum
        ('-' :: 'I' :: 'n' :: 'f' :: 'i' :: 'n' :: 'i' :: 't' :: 'y' :: rest)
      = some (JVal.inf true, rest) := rfl

/-! ### Round-trip of the string codec -/

theorem hexVal_hexDigitOf : ∀ n, n < 16 →
    hexDigitVal (hexDigitOf n) = some n := by
  decide

theorem parseStrBody_escapeChar (c : Char) (r : List Char) :
    parseStrBody (escapeChar c ++ r) =
      (parseStrBody r).map (fun p => (c :: p.1, p.2)) := by
  rw [escapeChar.eq_def]
  by_cases h1 : c == '\\'
  · rw [if_pos h1, show c = '\\' from by simpa using h1]
    rfl
  rw [if_neg h1]
  by_cases h2 : c == '"'
  · rw [if_pos h2, show c = '"' from by simpa using h2]
    rfl
  rw [if_neg h2]
  by_cases h3 : c == '\x08'
  · rw [if_pos h3, show c = '\x08' from by simpa using h3]
    rfl
  rw [if_neg h3]
  by_cases h4 : c == '\x0c'
  · rw [if_pos h4, show c = '\x0c' from by simpa using h4]
    rfl
  rw [if_neg h4]
  by_cases h5 : c == '\n'
  · rw [if_pos h5, show c = '\n' from by simpa using h5]
    rfl
  rw [if_neg h5]
  by_cases h6 : c == '\r'
  · rw [if_pos h6, show c = '\r' from by simpa using h6]
    rfl
  rw [if_neg h6]
  by_cases h7 : c == '\t'
  · rw [if_pos h7, show c = '\t' from by simpa using h7]
    rfl
  rw [if_neg h7]
  by_cases h8 : c.toNat < 0x20
  · rw [if_pos h8]
    simp only [List.cons_append, List.nil_append]
    rw [parseStrBody]
    have hhi : c.toNat / 16 < 16 := by omega
    have hlo : c.toNat % 16 < 16 := by omega
    rw [show hexDigitVal '0' = some 0 from rfl,
      hexVal_hexDigitOf _ hhi, hexVal_hexDigitOf _ hlo]
    have hc : Char.ofNat (c.toNat / 16 * 16 + c.toNat % 16) = c := by
      have harith : c.toNat / 16 * 16 + c.toNat % 16 = c.toNat := by omega
      rw [harith, Char.ofNat_toNat]
    simp [hc]
  · rw [if_neg h8]
    simp only [List.cons_append, List.nil_append]
    rw [parseStrBody.eq_def]
    split
    · rename_i heq
      exact List.noConfusion heq
    · rename_i heq
      rw [List.cons.injEq] at heq
      exact absurd (by simp [heq.1]) h2
    · rename_i heq
      rw [List.cons.injEq] at heq
      exact absurd (by simp [heq.1]) h1
    · rename_i heq
      rw [List.cons.injEq] at heq
      exact absurd (by simp [heq.1]) h1
    · rename_i c' rest heq
      rw [List.cons.injEq] at heq
      rw [← heq.1, ← heq.2, if_neg h8]

theorem parseStrBody_escapeList (cs : List Char) : ∀ r : List Char,
    parseStrBody (escapeList cs ++ '"' :: r) = some (cs, r) := by
  induction cs with
  | nil => intro r; rfl
  | cons c t ih =>
    intro r
    rw [escapeList, List.append_assoc, parseStrBody_escapeChar, ih r]
    rfl

/-! ### Heads of rendered output, whitespace, and parser step lemmas -/

theorem stringMk_data (s : String) : String.mk s.data = s := rfl

theorem digit_not_ws {c : Char} (h : isDigitChar c = true) :
    isWsChar c = false := by
  rw [isWsChar]
  have h1 : c ≠ ' ' := digit_ne_char h (by decide)
  have h2 : c ≠ '\n' := digit_ne_char h (by decide)
  have h3 : c ≠ '\t' := digit_ne_char h (by decide)
  have h4 : c ≠ '\r' := digit_ne_char h (by decide)
  simp [h1, h2, h3, h4]

theorem dropWs_cons_not_ws {c : Char} (t : List Char)
    (h : isWsChar c = false) : dropWs (c :: t) = c :: t := by
  rw [dropWs]
  simp [h]

theorem noDigitHead_cons (c : Char) (r : List Char) :
    noDigitHead (c :: r) = !isDigitChar c := rfl

/-- A head character the parser can dispatch on: neither whitespace nor a
closing delimiter. -/
def goodHead (c : Char) : Bool :=
  !(isWsChar c || c == ']' || c == '}')

theorem goodHead_split {c : Char} (h : goodHead c = true) :
    isWsChar c = false ∧ c ≠ ']' ∧ c ≠ '}' := by
  rw [goodHead, Bool.not_eq_true', Bool.or_eq_false_iff,
    Bool.or_eq_false_iff] at h
  exact ⟨h.1.1, by simpa using h.1.2, by simpa using h.2⟩

/-- Every rendered value begins with a character that is not whitespace,
not a digit-run continuation hazard, and closes nothing. -/
theorem dumpChars_head (j : JVal) :
    ∃ c t, dumpChars j = c :: t ∧ isWsChar c = false ∧ c ≠ ']' ∧ c ≠ '}' := by
  have base : ∃ c t, dumpChars j = c :: t ∧ goodHead c = true := by
    cases j with
    | num i =>
      by_cases hi : i < 0
      · refine ⟨'-', natDigits i.natAbs [], ?_, rfl⟩
        simp [dumpChars, intChars, hi]
      · obtain ⟨c0, t0, hnd, hc0⟩ := natDigits_head i.natAbs
        refine ⟨c0, t0, ?_, ?_⟩
        · simp [dumpChars, intChars, hi, hnd]
        · rw [goodHead, digit_not_ws hc0,
            beq_eq_false_iff_ne.mpr (digit_ne_char hc0 (by decide)),
            beq_eq_false_iff_ne.mpr (digit_ne_char hc0 (by decide))]
          rfl
    | flt sig ex =>
      by_cases hi : sig < 0
      · refine ⟨'-', natDigits sig.natAbs [] ++ 'e' :: intChars ex, ?_, rfl⟩
        rw [show dumpChars (.flt sig ex) = intChars sig ++ 'e' :: intChars ex
              from by rw [dumpChars]]
        simp [intChars, hi]
      · obtain ⟨c0, t0, hnd, hc0⟩ := natDigits_head sig.natAbs
        refine ⟨c0, t0 ++ 'e' :: intChars ex, ?_, ?_⟩
        · rw [show dumpChars (.flt sig ex) = intChars sig ++ 'e' :: intChars ex
              from by rw [dumpChars]]
          simp [intChars, hi, hnd]
        · rw [goodHead, digit_not_ws hc0,
            beq_eq_false_iff_ne.mpr (digit_ne_char hc0 (by decide)),
            beq_eq_false_iff_ne.mpr (digit_ne_char hc0 (by decide))]
          rfl
    | nan => exact ⟨'N', ['a', 'N'], by rw [dumpChars], rfl⟩
    | inf neg =>
      cases neg with
      | true => exact ⟨'-', "Infinity".data, by rw [dumpChars], rfl⟩
      | false => exact ⟨'I', "nfinity".data, by rw [dumpChars], rfl⟩
    | null => exact ⟨'n', ['u', 'l', 'l'], by rw [dumpChars], rfl⟩
    | bool b =>
      cases b with
      | true => exact ⟨'t', ['r', 'u', 'e'], by rw [dumpChars], rfl⟩
      | false => exact ⟨'f', ['a', 'l', 's', 'e'], by rw [dumpChars], rfl⟩
    | str s =>
      exact ⟨'"', escapeList s.data ++ ['"'], by rw [dumpChars, strChars], rfl⟩
    | arr es => exact ⟨'[', dumpArr es ++ [']'], by rw [dumpChars], rfl⟩
    | obj ms => exact ⟨'{', dumpObj ms ++ ['}'], by rw [dumpChars], rfl⟩
  obtain ⟨c, t, hct, hok⟩ := base
  obtain ⟨hws, hb1, hb2⟩ := goodHead_split hok
  exact ⟨c, t, hct, hws, hb1, hb2⟩

/-- `dropWs` leaves rendered output alone: it never starts with
whitespace. -/
theorem dropWs_dump (j : JVal) (x : List Char) :
    dropWs (dumpChars j ++ x) = dumpChars j ++ x := by
  obtain ⟨c, t, hct, hws, -, -⟩ := dumpChars_head j
  rw [hct, List.cons_append, dropWs_cons_not_ws _ hws]

theorem dumpArrRest_cons (x : JVal) (xs : List JVal) :
    dumpArrRest (x :: xs) = ',' :: ' ' :: dumpArr (x :: xs) := rfl

theorem dumpObjRest_cons (k : String) (v : JVal) (ms : List (String × JVal)) :
    dumpObjRest ((k, v) :: ms) = ',' :: ' ' :: dumpObj ((k, v) :: ms) := rfl

/-- One-step unfolding of `parseVal` at successor fuel (definitional). -/
theorem parseVal_step (fuel : Nat) (cs : List Char) :
    parseVal (fuel + 1) cs =
      match cs with
      | 'n' :: 'u' :: 'l' :: 'l' :: r => some (.null, r)
      | 't' :: 'r' :: 'u' :: 'e' :: r => some (.bool true, r)
      | 'f' :: 'a' :: 'l' :: 's' :: 'e' :: r => some (.bool false, r)
      | '"' :: r =>
        (parseStrBody r).map (fun p => (.str (String.mk p.1), p.2))
      | '[' :: r =>
        (match dropWs r with
         | ']' :: r' => some (.arr [], r')
         | r' => (parseArrItems fuel r').map (fun p => (.arr p.1, p.2)))
      | '{' :: r =>
        (match dropWs r with
         | '}' :: r' => some (.obj [], r')
         | r' => (parseObjItems fuel r').map (fun p => (.obj p.1, p.2)))
      | _ => parseNum cs := by
  rw [parseVal.eq_def]

/-- One-step unfolding of `parseArrItems` at successor fuel. -/
theorem parseArrItems_step (fuel : Nat) (cs : List Char) :
    parseArrItems (fuel + 1) cs =
      match parseVal fuel cs with
      | none => none
      | some (v, r) =>
        match dropWs r with
        | ',' :: r' =>
          (parseArrItems fuel (dropWs r')).map (fun p => (v :: p.1, p.2))
        | ']' :: r' => some ([v], r')
        | _ => none := by
  rw [parseArrItems.eq_def]

/-- One-step unfolding of `parseObjItems` at successor fuel. -/
theorem parseObjItems_step (fuel : Nat) (cs : List Char) :
    parseObjItems (fuel + 1) cs =
      match cs with
      | '"' :: r =>
        (match parseStrBody r with
         | none => none
         | some (kcs, r1) =>
           match dropWs r1 with
           | ':' :: r2 =>
             (match parseVal fuel (dropWs r2) with
              | none => none
              | some (v, r3) =>
                match dropWs r3 with
                | ',' :: r4 =>
                  (parseObjItems fuel (dropWs r4)).map
                    (fun p => ((String.mk kcs, v) :: p.1, p.2))
                | '}' :: r4 => some ([(String.mk kcs, v)], r4)
                | _ => none)
           | _ => none)
      | _ => none := by
  rw [parseObjItems.eq_def]

/-- A head that is `'-'` or a digit matches none of the keyword, string,
array or object dispatch patterns. -/
theorem headlike_ne_dispatch {c0 : Char}
    (h : c0 = '-' ∨ isDigitChar c0 = true) :
    c0 ≠ 'n' ∧ c0 ≠ 't' ∧ c0 ≠ 'f' ∧ c0 ≠ '"' ∧ c0 ≠ '[' ∧ c0 ≠ '{' := by
  rcases h with rfl | hd
  · exact ⟨by decide, by decide, by decide, by decide, by decide, by decide⟩
  · exact ⟨digit_ne_char hd (by decide), digit_ne_char hd (by decide),
      digit_ne_char hd (by decide), digit_ne_char hd (by decide),
      digit_ne_char hd (by decide), digit_ne_char hd (by decide)⟩

/-- On any head outside the keyword/string/array/object patterns, the
`parseVal` dispatch falls through to the number branch. -/
theorem parseVal_defaults (fuel : Nat) (c0 : Char) (t0 : List Char)
    (hne : c0 ≠ 'n' ∧ c0 ≠ 't' ∧ c0 ≠ 'f' ∧ c0 ≠ '"' ∧ c0 ≠ '[' ∧
      c0 ≠ '{') :
    parseVal (fuel + 1) (c0 :: t0) = parseNum (c0 :: t0) := by
  rw [parseVal_step]
  split
  · rename_i heq
    rw [List.cons.injEq] at heq
    exact absurd heq.1 hne.1
  · rename_i heq
    rw [List.cons.injEq] at heq
    exact absurd heq.1 hne.2.1
  · rename_i heq
    rw [List.cons.injEq] at heq
    exact absurd heq.1 hne.2.2.1
  · rename_i heq
    rw [List.cons.injEq] at heq
    exact absurd heq.1 hne.2.2.2.1
  · rename_i heq
    rw [List.cons.injEq] at heq
    exact absurd heq.1 hne.2.2.2.2.1
  · rename_i heq
    rw [List.cons.injEq] at heq
    exact absurd heq.1 hne.2.2.2.2.2
  · rfl

theorem dropWs_space (y : List Char) : dropWs (' ' :: y) = dropWs y := rfl

theorem numBoundary_comma (r : List Char) :
    numBoundary (',' :: r) = true := rfl

theorem numBoundary_rbracket (r : List Char) :
    numBoundary (']' :: r) = true := rfl

theorem numBoundary_rbrace (r : List Char) :
    numBoundary ('}' :: r) = true := rfl

theorem parseVal_null (fuel : Nat) (r : List Char) :
    parseVal (fuel + 1) ('n' :: 'u' :: 'l' :: 'l' :: r) = some (.null, r) := rfl

theorem parseVal_true (fuel : Nat) (r : List Char) :
    parseVal (fuel + 1) ('t' :: 'r' :: 'u' :: 'e' :: r) =
      some (.bool true, r) := rfl

theorem parseVal_false (fuel : Nat) (r : List Char) :
    parseVal (fuel + 1) ('f' :: 'a' :: 'l' :: 's' :: 'e' :: r) =
      some (.bool false, r) := rfl

theorem parseVal_quote (fuel : Nat) (r : List Char) :
    parseVal (fuel + 1) ('"' :: r) =
      (parseStrBody r).map (fun p => (.str (String.mk p.1), p.2)) := rfl

theorem parseVal_lbracket (fuel : Nat) (r : List Char) :
    parseVal (fuel + 1) ('[' :: r) =
      (match dropWs r with
       | ']' :: r' => some (.arr [], r')
       | r' => (parseArrItems fuel r').map (fun p => (.arr p.1, p.2))) := rfl

theorem parseVal_lbrace (fuel : Nat) (r : List Char) :
    parseVal (fuel + 1) ('{' :: r) =
      (match dropWs r with
       | '}' :: r' => some (.obj [], r')
       | r' => (parseObjItems fuel r').map (fun p => (.obj p.1, p.2))) := rfl

theorem parseObjItems_quote (fuel : Nat) (r : List Char) :
    parseObjItems (fuel + 1) ('"' :: r) =
      (match parseStrBody r with
       | none => none
       | some (kcs, r1) =>
         match dropWs r1 with
         | ':' :: r2 =>
           (match parseVal fuel (dropWs r2) with
            | none => none
            | some (v, r3) =>
              match dropWs r3 with
              | ',' :: r4 =>
                (parseObjItems fuel (dropWs r4)).map
                  (fun p => ((String.mk kcs, v) :: p.1, p.2))
              | '}' :: r4 => some ([(String.mk kcs, v)], r4)
              | _ => none)
         | _ => none) := rfl

/-- Array-items step when the parsed value is followed by a comma. -/
theorem parseArrItems_more (fuel : Nat) (cs : List Char) (v : JVal)
    (r r' : List Char) (hv : parseVal fuel cs = some (v, r))
    (hr : dropWs r = ',' :: r') :
    parseArrItems (fuel + 1) cs =
      (parseArrItems fuel (dropWs r')).map (fun p => (v :: p.1, p.2)) := by
  rw [parseArrItems_step, hv]
  simp only []
  rw [hr]
  rfl

/-- Array-items step when the parsed value is followed by the closing
bracket. -/
theorem parseArrItems_last (fuel : Nat) (cs : List Char) (v : JVal)
    (r r' : List Char) (hv : parseVal fuel cs = some (v, r))
    (hr : dropWs r = ']' :: r') :
    parseArrItems (fuel + 1) cs = some ([v], r') := by
  rw [parseArrItems_step, hv]
  simp only []
  rw [hr]
  rfl

/-- Object-items step once the key, the colon and the value have all been
parsed: what remains is the comma/closing-brace dispatch. -/
theorem parseObjItems_member (fuel : Nat) (r kcs r1 r2 : List Char)
    (v : JVal) (r3 : List Char)
    (hk : parseStrBody r = some (kcs, r1))
    (h1 : dropWs r1 = ':' :: r2)
    (hv : parseVal fuel (dropWs r2) = some (v, r3)) :
    parseObjItems (fuel + 1) ('"' :: r) =
      match dropWs r3 with
      | ',' :: r4 =>
        (parseObjItems fuel (dropWs r4)).map
          (fun p => ((String.mk kcs, v) :: p.1, p.2))
      | '}' :: r4 => some ([(String.mk kcs, v)], r4)
      | _ => none := by
  rw [parseObjItems_quote, hk]
  simp only []
  rw [h1]
  simp only []
  rw [hv]

/-- `parseObjItems_member` when the member is followed by a comma. -/
theorem parseObjItems_member_more (fuel : Nat) (r kcs r1 r2 : List Char)
    (v : JVal) (r3 r4 : List Char)
    (hk : parseStrBody r = some (kcs, r1))
    (h1 : dropWs r1 = ':' :: r2)
    (hv : parseVal fuel (dropWs r2) = some (v, r3))
    (hr : dropWs r3 = ',' :: r4) :
    parseObjItems (fuel + 1) ('"' :: r) =
      (parseObjItems fuel (dropWs r4)).map
        (fun p => ((String.mk kcs, v) :: p.1, p.2)) := by
  rw [parseObjItems_member fuel r kcs r1 r2 v r3 hk h1 hv, hr]
  rfl

/-- `parseObjItems_member` when the member is followed by the closing
brace. -/
theorem parseObjItems_member_last (fuel : Nat) (r kcs r1 r2 : List Char)
    (v : JVal) (r3 r4 : List Char)
    (hk : parseStrBody r = some (kcs, r1))
    (h1 : dropWs r1 = ':' :: r2)
    (hv : parseVal fuel (dropWs r2) = some (v, r3))
    (hr : dropWs r3 = '}' :: r4) :
    parseObjItems (fuel + 1) ('"' :: r) = some ([(String.mk kcs, v)], r4) := by
  rw [parseObjItems_member fuel r kcs r1 r2 v r3 hk h1 hv, hr]
  rfl

/-! ### The codec round-trip: `parseVal` inverts `dumpChars` -/

mutual
theorem rtVal : ∀ (j : JVal) (fuel : Nat) (rest : List Char),
    (dumpChars j).length < fuel → numBoundary rest = true →
    parseVal fuel (dumpChars j ++ rest) = some (j, rest)
  | .null, fuel, rest, hf, _ => by
    cases fuel with
    | zero => exact absurd hf (Nat.not_lt_zero _)
    | succ f =>
      rw [show dumpChars .null = ['n', 'u', 'l', 'l'] from by rw [dumpChars]]
      exact parseVal_null f rest
  | .bool true, fuel, rest, hf, _ => by
    cases fuel with
    | zero => exact absurd hf (Nat.not_lt_zero _)
    | succ f =>
      rw [show dumpChars (.bool true) = ['t', 'r', 'u', 'e'] from by
        rw [dumpChars]]
      exact parseVal_true f rest
  | .bool false, fuel, rest, hf, _ => by
    cases fuel with
    | zero => exact absurd hf (Nat.not_lt_zero _)
    | succ f =>
      rw [show dumpChars (.bool false) = ['f', 'a', 'l', 's', 'e'] from by
        rw [dumpChars]]
      exact parseVal_false f rest
  | .num i, fuel, rest, hf, hr => by
    cases fuel with
    | zero => exact absurd hf (Nat.not_lt_zero _)
    | succ f =>
      rw [show dumpChars (.num i) = intChars i from by rw [dumpChars]]
      obtain ⟨c0, t0, hct, hgb, -⟩ := intChars_shape i rest
      rw [hct, parseVal_defaults f c0 t0 (headlike_ne_dispatch hgb), ← hct,
        parseNum_int i rest hr]
  | .flt sig ex, fuel, rest, hf, hr => by
    cases fuel with
    | zero => exact absurd hf (Nat.not_lt_zero _)
    | succ f =>
      have hinput : dumpChars (.flt sig ex) ++ rest
          = intChars sig ++ 'e' :: (intChars ex ++ rest) := by
        rw [show dumpChars (.flt sig ex) = intChars sig ++ 'e' :: intChars ex
              from by rw [dumpChars]]
        simp
      obtain ⟨c0, t0, hct, hgb, -⟩ :=
        intChars_shape sig ('e' :: (intChars ex ++ rest))
      rw [hinput, hct, parseVal_defaults f c0 t0 (headlike_ne_dispatch hgb),
        ← hct, parseNum_flt sig ex rest hr]
  | .nan, fuel, rest, hf, _ => by
    cases fuel with
    | zero => exact absurd hf (Nat.not_lt_zero _)
    | succ f =>
      have hinput : dumpChars JVal.nan ++ rest = 'N' :: 'a' :: 'N' :: rest := by
        rw [dumpChars]
        rfl
      rw [hinput, parseVal_defaults f 'N' ('a' :: 'N' :: rest)
          ⟨by decide, by decide, by decide, by decide, by decide, by decide⟩,
        parseNum_nan]
  | .inf true, fuel, rest, hf, _ => by
    cases fuel with
    | zero => exact absurd hf (Nat.not_lt_zero _)
    | succ f =>
      have hinput : dumpChars (JVal.inf true) ++ rest
          = '-' :: 'I' :: 'n' :: 'f' :: 'i' :: 'n' :: 'i' :: 't' :: 'y'
              :: rest := by
        rw [dumpChars]
        rfl
      rw [hinput, parseVal_defaults f '-'
          ('I' :: 'n' :: 'f' :: 'i' :: 'n' :: 'i' :: 't' :: 'y' :: rest)
          ⟨by decide, by decide, by decide, by decide, by decide, by decide⟩,
        parseNum_ninf]
  | .inf false, fuel, rest, hf, _ => by
    cases fuel with
    | zero => exact absurd hf (Nat.not_lt_zero _)
    | succ f =>
      have hinput : dumpChars (JVal.inf false) ++ rest
          = 'I' :: 'n' :: 'f' :: 'i' :: 'n' :: 'i' :: 't' :: 'y' :: rest := by
        rw [dumpChars]
        rfl
      rw [hinput, parseVal_defaults f 'I'
          ('n' :: 'f' :: 'i' :: 'n' :: 'i' :: 't' :: 'y' :: rest)
          ⟨by decide, by decide, by decide, by decide, by decide, by decide⟩,
        parseNum_inf]
  | .str s, fuel, rest, hf, _ => by
    cases fuel with
    | zero => exact absurd hf (Nat.not_lt_zero _)
    | succ f =>
      have hinput : dumpChars (.str s) ++ rest
          = '"' :: (escapeList s.data ++ '"' :: rest) := by
        rw [dumpChars, strChars]
        simp
      rw [hinput, parseVal_quote, parseStrBody_escapeList]
      rfl
  | .arr [], fuel, rest, hf, _ => by
    cases fuel with
    | zero => exact absurd hf (Nat.not_lt_zero _)
    | succ f =>
      have hinput : dumpChars (.arr []) ++ rest = '[' :: ']' :: rest := by
        rw [dumpChars, dumpArr]
        rfl
      rw [hinput, parseVal_lbracket, dropWs_cons_not_ws _ (by decide)]
      rfl
  | .arr (e :: es), fuel, rest, hf, _ => by
    cases fuel with
    | zero => exact absurd hf (Nat.not_lt_zero _)
    | succ f =>
      have hlen : (dumpArr (e :: es)).length + 1 < f := by
        rw [show dumpChars (.arr (e :: es)) = '[' :: (dumpArr (e :: es) ++ [']'])
              from by rw [dumpChars]] at hf
        simp at hf
        omega
      have hinput : dumpChars (.arr (e :: es)) ++ rest
          = '[' :: (dumpArr (e :: es) ++ ']' :: rest) := by
        rw [dumpChars]
        simp
      obtain ⟨c, t, hct, hws, hbr, -⟩ := dumpChars_head e
      have hshape : dumpArr (e :: es) ++ ']' :: rest
          = c :: (t ++ dumpArrRest es ++ ']' :: rest) := by
        rw [dumpArr, hct]
        simp
      rw [hinput, parseVal_lbracket, hshape, dropWs_cons_not_ws _ hws]
      split
      · rename_i heq
        rw [List.cons.injEq] at heq
        exact absurd heq.1 hbr
      · rw [← hshape, rtArr e es f rest hlen]
        rfl
  | .obj [], fuel, rest, hf, _ => by
    cases fuel with
    | zero => exact absurd hf (Nat.not_lt_zero _)
    | succ f =>
      have hinput : dumpChars (.obj []) ++ rest = '{' :: '}' :: rest := by
        rw [dumpChars, dumpObj]
        rfl
      rw [hinput, parseVal_lbrace, dropWs_cons_not_ws _ (by decide)]
      rfl
  | .obj ((k, v) :: ms), fuel, rest, hf, _ => by
    cases fuel with
    | zero => exact absurd hf (Nat.not_lt_zero _)
    | succ f =>
      have hlen : (dumpObj ((k, v) :: ms)).length + 1 < f := by
        rw [show dumpChars (.obj ((k, v) :: ms))
              = '{' :: (dumpObj ((k, v) :: ms) ++ ['}'])
              from by rw [dumpChars]] at hf
        simp at hf
        omega
      have hinput : dumpChars (.obj ((k, v) :: ms)) ++ rest
          = '{' :: (dumpObj ((k, v) :: ms) ++ '}' :: rest) := by
        rw [dumpChars]
        simp
      have hshape : dumpObj ((k, v) :: ms) ++ '}' :: rest
          = '"' :: (escapeList k.data ++ ['"'] ++
              (':' :: ' ' :: (dumpChars v ++ dumpObjRest ms) ++ '}' :: rest)) := by
        rw [dumpObj, strChars]
        simp
      rw [hinput, parseVal_lbrace, hshape,
        dropWs_cons_not_ws _ (by decide)]
      split
      · rename_i heq
        exact List.noConfusion heq (fun h _ => by exact absurd h (by decide))
      · rw [← hshape, rtObj (k, v) ms f rest hlen]
        rfl
  termination_by j _ _ _ _ => sizeOf j

theorem rtArr : ∀ (e : JVal) (es : List JVal) (fuel : Nat) (rest : List Char),
    (dumpArr (e :: es)).length + 1 < fuel →
    parseArrItems fuel (dumpArr (e :: es) ++ ']' :: rest) = some (e :: es, rest)
  | e, [], fuel, rest, hf => by
    cases fuel with
    | zero => exact absurd hf (Nat.not_lt_zero _)
    | succ f =>
      have hlen : (dumpChars e).length < f := by
        rw [dumpArr, dumpArrRest] at hf
        simp at hf
        omega
      have hinput : dumpArr (e :: []) ++ ']' :: rest
          = dumpChars e ++ ']' :: rest := by
        rw [dumpArr, dumpArrRest]
        simp
      rw [hinput,
        parseArrItems_last f _ e (']' :: rest) rest
          (rtVal e f (']' :: rest) hlen (numBoundary_rbracket rest))
          (dropWs_cons_not_ws _ (by decide))]
  | e, x :: xs, fuel, rest, hf => by
    cases fuel with
    | zero => exact absurd hf (Nat.not_lt_zero _)
    | succ f =>
      have hf' : (dumpChars e).length + 2 + (dumpArr (x :: xs)).length + 1
          < f + 1 := by
        rw [dumpArr, dumpArrRest_cons] at hf
        simp at hf
        omega
      have hlen_e : (dumpChars e).length < f := by omega
      have hlen_x : (dumpArr (x :: xs)).length + 1 < f := by omega
      have hinput : dumpArr (e :: x :: xs) ++ ']' :: rest
          = dumpChars e ++ ',' :: ' ' :: (dumpArr (x :: xs) ++ ']' :: rest) := by
        rw [dumpArr, dumpArrRest_cons]
        simp
      have hdrop : dropWs (' ' :: (dumpArr (x :: xs) ++ ']' :: rest))
          = dumpArr (x :: xs) ++ ']' :: rest := by
        obtain ⟨c, t, hct, hws, -, -⟩ := dumpChars_head x
        rw [dropWs_space, dumpArr, hct]
        simp only [List.cons_append, List.append_assoc]
        exact dropWs_cons_not_ws _ hws
      rw [hinput,
        parseArrItems_more f _ e
          (',' :: ' ' :: (dumpArr (x :: xs) ++ ']' :: rest))
          (' ' :: (dumpArr (x :: xs) ++ ']' :: rest))
          (rtVal e f _ hlen_e (numBoundary_comma _))
          (dropWs_cons_not_ws _ (by decide)),
        hdrop, rtArr x xs f rest hlen_x]
      rfl
  termination_by e es _ _ _ => sizeOf e + sizeOf es

theorem rtObj : ∀ (kv : String × JVal) (ms : List (String × JVal))
    (fuel : Nat) (rest : List Char),
    (dumpObj (kv :: ms)).length + 1 < fuel →
    parseObjItems fuel (dumpObj (kv :: ms) ++ '}' :: rest)
      = some (kv :: ms, rest)
  | (k, v), [], fuel, rest, hf => by
    cases fuel with
    | zero => exact absurd hf (Nat.not_lt_zero _)
    | succ f =>
      have hlen : (dumpChars v).length < f := by
        rw [dumpObj, dumpObjRest, strChars] at hf
        simp at hf
        omega
      have hinput : dumpObj ((k, v) :: []) ++ '}' :: rest
          = '"' :: (escapeList k.data ++
              '"' :: (':' :: (' ' :: (dumpChars v ++ '}' :: rest)))) := by
        rw [dumpObj, dumpObjRest, strChars]
        simp
      have hdrop : dropWs (' ' :: (dumpChars v ++ '}' :: rest))
          = dumpChars v ++ '}' :: rest := by
        rw [dropWs_space]
        exact dropWs_dump v _
      have hv : parseVal f (dropWs (' ' :: (dumpChars v ++ '}' :: rest)))
          = some (v, '}' :: rest) := by
        rw [hdrop]
        exact rtVal v f _ hlen (numBoundary_rbrace _)
      rw [hinput,
        parseObjItems_member_last f _ k.data
          (':' :: (' ' :: (dumpChars v ++ '}' :: rest)))
          (' ' :: (dumpChars v ++ '}' :: rest)) v ('}' :: rest) rest
          (parseStrBody_escapeList k.data _)
          (dropWs_cons_not_ws _ (by decide)) hv
          (dropWs_cons_not_ws _ (by decide))]
  | (k, v), (k2, v2) :: ms, fuel, rest, hf => by
    cases fuel with
    | zero => exact absurd hf (Nat.not_lt_zero _)
    | succ f =>
      have hf' : (escapeList k.data).length + 4 + (dumpChars v).length + 2
          + (dumpObj ((k2, v2) :: ms)).length + 1 < f + 1 := by
        rw [dumpObj, dumpObjRest_cons, strChars] at hf
        simp at hf
        omega
      have hlen_v : (dumpChars v).length < f := by omega
      have hlen_m : (dumpObj ((k2, v2) :: ms)).length + 1 < f := by omega
      have hinput : dumpObj ((k, v) :: (k2, v2) :: ms) ++ '}' :: rest
          = '"' :: (escapeList k.data ++
              '"' :: (':' :: (' ' :: (dumpChars v ++
                ',' :: ' ' :: (dumpObj ((k2, v2) :: ms) ++ '}' :: rest))))) := by
        rw [dumpObj, dumpObjRest_cons, strChars]
        simp
      have hdrop1 : dropWs (' ' :: (dumpChars v ++
          ',' :: ' ' :: (dumpObj ((k2, v2) :: ms) ++ '}' :: rest)))
          = dumpChars v ++ ',' :: ' ' :: (dumpObj ((k2, v2) :: ms) ++ '}' :: rest) := by
        rw [dropWs_space]
        exact dropWs_dump v _
      have hv : parseVal f (dropWs (' ' :: (dumpChars v ++
          ',' :: ' ' :: (dumpObj ((k2, v2) :: ms) ++ '}' :: rest))))
          = some (v, ',' :: ' ' :: (dumpObj ((k2, v2) :: ms) ++ '}' :: rest)) := by
        rw [hdrop1]
        exact rtVal v f _ hlen_v (numBoundary_comma _)
      have hdrop2 : dropWs (' ' :: (dumpObj ((k2, v2) :: ms) ++ '}' :: rest))
          = dumpObj ((k2, v2) :: ms) ++ '}' :: rest := by
        rw [dropWs_space, dumpObj, strChars]
        simp only [List.cons_append, List.append_assoc]
        exact dropWs_cons_not_ws _ (by decide)
      rw [hinput,
        parseObjItems_member_more f _ k.data
          (':' :: (' ' :: (dumpChars v ++
            ',' :: ' ' :: (dumpObj ((k2, v2) :: ms) ++ '}' :: rest))))
          (' ' :: (dumpChars v ++
            ',' :: ' ' :: (dumpObj ((k2, v2) :: ms) ++ '}' :: rest)))
          v (',' :: ' ' :: (dumpObj ((k2, v2) :: ms) ++ '}' :: rest))
          (' ' :: (dumpObj ((k2, v2) :: ms) ++ '}' :: rest))
          (parseStrBody_escapeList k.data _)
          (dropWs_cons_not_ws _ (by decide)) hv
          (dropWs_cons_not_ws _ (by decide)),
        hdrop2, rtObj (k2, v2) ms f rest hlen_m]
      rfl
  termination_by kv ms _ _ _ => sizeOf kv + sizeOf ms
end

/-- The stdlib codec round-trip: `json.loads (json.dumps j) = j`. -/
theorem loads_dumps (j : JVal) : loads (dumpsString j) = some j := by
  obtain ⟨c, t, hct, hws, -, -⟩ := dumpChars_head j
  have hdrop : dropWs (dumpsString j).data = dumpChars j := by
    show dropWs (dumpChars j) = dumpChars j
    rw [hct]
    exact dropWs_cons_not_ws _ hws
  have hparse : parseVal ((dumpChars j).length + 1) (dumpChars j)
      = some (j, []) := by
    have h := rtVal j ((dumpChars j).length + 1) [] (by omega) rfl
    simpa using h
  rw [loads]
  simp only [hdrop, hparse]
  rfl

/-! ### The cache manager proper -/

/-- What the Redis client stores for one key: Python `str` or `bytes`. -/
inductive Payload where
  | str (s : String)
  | bytes (b : List Nat)

/-- A Python value flowing in and out of the cache manager.  `json j`
stands for a non-`str`, non-`bytes` JSON-serializable value (dict, list,
number, ...); `unserializable` stands for any object `json.dumps` rejects
with a `TypeError`. -/
inductive PyVal where
  | str (s : String)
  | bytes (b : List Nat)
  | json (j : JVal)
  | unserializable

/-- The exception a cache-manager operation can let escape. -/
inductive PyErr where
  | typeError
deriving DecidableEq, Repr

/-- redis.py lines 96-97: `if not isinstance(value, (str, bytes)): value
= json.dumps(value)`; `json.dumps` raises `TypeError` on unserializable
objects. -/
def serializeValue : PyVal → Except PyErr Payload
  | .str s => .ok (.str s)
  | .bytes b => .ok (.bytes b)
  | .json j => .ok (.str (dumpsString j))
  | .unserializable => .error .typeError

/-- The Redis server as seen by the manager: unreachable (every command
raises `redis.ConnectionError`), or reachable with a clock and a table of
entries `key ↦ (payload, absolute expiry instant)`; an entry is live
while `now < expiry`. -/
inductive Backend where
  | down
  | up (now : Nat) (entries : List (String × Payload × Nat))

/-- The payload a live (non-expired) entry holds; an expired entry
behaves as absent, exactly as Redis reports it. -/
def liveGet (now : Nat) (entries : List (String × Payload × Nat))
    (k : String) : Option Payload :=
  match dictGet entries k with
  | some (p, expiry) => if now < expiry then some p else none
  | none => none

/-- `value.startswith(c)` for a one-character prefix. -/
def startsWithChar (s : String) (c : Char) : Bool :=
  match s.data with
  | [] => false
  | a :: _ => a == c

/-- redis.py lines 124-131 (and the identical logic at lines 236-243 in
`get_many`): bytes come back raw; a string that looks like a JSON object
or array (leading `{` or `[`) is `json.loads`-decoded, falling back to
the raw string on `json.JSONDecodeError`. -/
def deserializeValue : Payload → PyVal
  | .bytes b => .bytes b
  | .str s =>
    if startsWithChar s '{' || startsWithChar s '[' then
      match loads s with
      | some j => .json j
      | none => .str s
    else .str s

namespace RedisManager

/-- `RedisManager.set` (redis.py lines 82-106): serialize non-text
values, apply the default expiration when none is given, store.  The
`except` clause catches only `redis.RedisError` and `ConnectionError`
(returning `False`); the `TypeError` raised by `json.dumps` inside the
same `try` block is not caught and propagates to the caller. -/
def set (defaultTtl : Nat) (b : Backend) (key : String) (value : PyVal)
    (expiration : Option Nat) : Except PyErr (Backend × Bool) :=
  match serializeValue value with
  | .error e => .error e
  | .ok p =>
    let ttl := expiration.getD defaultTtl
    match b with
    | .down => .ok (b, false)
    | .up now es => .ok (.up now (dictSet es key (p, now + ttl)), true)

/-- `RedisManager.get` (redis.py lines 108-134): a missing or expired key
and an unreachable server all yield the caller-supplied default; never
raises. -/
def get (b : Backend) (key : String) (default : PyVal) : PyVal :=
  match b with
  | .down => default
  | .up now es =>
    match liveGet now es key with
    | none => default
    | some p => deserializeValue p

/-- `RedisManager.delete` (redis.py lines 136-150): `bool(count deleted)`;
a connection failure degrades to `False`. -/
def delete (b : Backend) (key : String) : Backend × Bool :=
  match b with
  | .down => (b, false)
  | .up now es =>
    (.up now (es.filter (fun e => !(e.1 == key))),
      (liveGet now es key).isSome)

/-- `RedisManager.exists` (redis.py lines 152-166); named `existsKey`
because `exists` is reserved in Lean. -/
def existsKey (b : Backend) (key : String) : Bool :=
  match b with
  | .down => false
  | .up now es => (liveGet now es key).isSome

/-- `RedisManager.flush_all` (redis.py lines 168-181). -/
def flushAll (b : Backend) : Backend × Bool :=
  match b with
  | .down => (b, false)
  | .up now _ => (.up now [], true)

/-- Serialization loop of `set_many` (redis.py lines 195-201): every
non-`str`/`bytes` value is `json.dumps`-serialized before the pipeline
runs; an unserializable value raises `TypeError` out of the loop. -/
def serializeMapping :
    List (String × PyVal) → Except PyErr (List (String × Payload))
  | [] => .ok []
  | (k, v) :: rest =>
    match serializeValue v with
    | .error e => .error e
    | .ok p =>
      match serializeMapping rest with
      | .error e => .error e
      | .ok ps => .ok ((k, p) :: ps)

/-- `RedisManager.set_many` (redis.py lines 183-214): serialize the whole
mapping, then set every pair in one pipeline, each with the given (or
default) expiration. -/
def setMany (defaultTtl : Nat) (b : Backend)
    (mapping : List (String × PyVal)) (expiration : Option Nat) :
    Except PyErr (Backend × Bool) :=
  match serializeMapping mapping with
  | .error e => .error e
  | .ok ps =>
    let ttl := expiration.getD defaultTtl
    match b with
    | .down => .ok (b, false)
    | .up now es =>
      .ok (.up now
        (ps.foldl (fun acc p => dictSet acc p.1 (p.2, now + ttl)) es), true)

/-- `RedisManager.get_many` (redis.py lines 216-247): one pipelined GET
per key; keys whose value came back `None` are left out of the result
dict; string values that look like JSON are decoded exactly as in
`get`. -/
def getMany (b : Backend) (keys : List String) : List (String × PyVal) :=
  match b with
  | .down => []
  | .up now es =>
    keys.foldl
      (fun result k =>
        match liveGet now es k with
        | none => result
        | some p => dictSet result k (deserializeValue p)) []

/-- A part passed to `build_key`: the call sites use strings and
integers, plus `None` for an absent part. -/
inductive KeyPart where
  | s (v : String)
  | i (v : Int)
  | none

/-- Python truthiness of a part: `""`, `0` and `None` are falsy. -/
def KeyPart.truthy : KeyPart → Bool
  | .s v => !(v == "")
  | .i v => !(v == 0)
  | .none => false

/-- `str(p)` for a key part. -/
def KeyPart.toStr : KeyPart → String
  | .s v => v
  | .i v => String.mk (intChars v)
  | .none => "None"

/-- `':'.join(...)` over a list of strings. -/
def joinColon : List String → String
  | [] => ""
  | [x] => x
  | x :: xs => x ++ ":" ++ joinColon xs

/-- `RedisManager.build_key` (redis.py lines 249-259):
`':'.join(str(p) for p in parts if p)`. -/
def buildKey (parts : List KeyPart) : String :=
  joinColon ((parts.filter KeyPart.truthy).map KeyPart.toStr)

end RedisManager

/-! ### C4: the set/get round-trip -/

/-- The value shapes the set/get round-trip actually preserves:
structured JSON values (objects and arrays), byte payloads, and scalar
strings that the read path will not mis-decode — i.e. strings that do not
begin with `{` or `[`, or that fail to parse as JSON when they do. -/
def roundtrippable : PyVal → Bool
  | .str s =>
    if startsWithChar s '{' || startsWithChar s '[' then (loads s).isNone
    else true
  | .bytes _ => true
  | .json (JVal.arr _) => true
  | .json (JVal.obj _) => true
  | .json _ => false
  | .unserializable => false

/-- C4, counterexample. A scalar string that is itself valid JSON text —
here `"[1]"` — is stored raw, but the read path sees the leading `[`,
decodes it, and hands back the decoded structure instead of the string:
scalar strings ARE misinterpreted as JSON. -/
theorem cache_roundtrip_jsonlike_string_cex :
    RedisManager.set 60 (Backend.up 0 []) "k" (PyVal.str "[1]") none
      = .ok (Backend.up 0 [("k", (Payload.str "[1]", 60))], true) ∧
    RedisManager.get (Backend.up 0 [("k", (Payload.str "[1]", 60))]) "k"
        (PyVal.str "")
      = PyVal.json (JVal.arr [JVal.num 1]) ∧
    PyVal.json (JVal.arr [JVal.num 1]) ≠ PyVal.str "[1]" := by
  refine ⟨rfl, rfl, ?_⟩
  intro h
  exact PyVal.noConfusion h

/-- C4, amended. `set(k, v)` then an immediate `get(k)` (store reachable,
positive effective TTL) returns a value equal to `v` for structured
(object/array) JSON-serializable values, for byte payloads, and for
scalar strings except those that begin with `{` or `[` AND parse as valid
JSON — such a string is returned as the decoded JSON structure instead
(see the counterexample). -/
theorem cache_set_get_roundtrip (defaultTtl now : Nat)
    (es : List (String × Payload × Nat)) (k : String) (v : PyVal)
    (expiration : Option Nat) (default : PyVal)
    (httl : 0 < expiration.getD defaultTtl)
    (hv : roundtrippable v = true) :
    ∃ es', RedisManager.set defaultTtl (.up now es) k v expiration
        = .ok (.up now es', true) ∧
      RedisManager.get (.up now es') k default = v := by
  have hlive : ∀ p : Payload,
      liveGet now (dictSet es k (p, now + expiration.getD defaultTtl)) k
        = some p := by
    intro p
    rw [liveGet, dictGet_dictSet_self]
    simp only [if_pos (by omega : now < now + expiration.getD defaultTtl)]
  cases v with
  | str s =>
    refine ⟨dictSet es k (Payload.str s, now + expiration.getD defaultTtl),
      by rw [RedisManager.set]; rfl, ?_⟩
    rw [RedisManager.get]
    simp only [hlive]
    rw [deserializeValue]
    simp only [roundtrippable] at hv
    by_cases hst : (startsWithChar s '{' || startsWithChar s '[') = true
    · rw [if_pos hst] at hv ⊢
      rw [Option.isNone_iff_eq_none] at hv
      rw [hv]
    · rw [if_neg hst]
  | bytes bs =>
    exact ⟨dictSet es k (Payload.bytes bs, now + expiration.getD defaultTtl),
      by rw [RedisManager.set]; rfl,
      by rw [RedisManager.get]; simp only [hlive]; rw [deserializeValue]⟩
  | unserializable => exact absurd hv (by simp [roundtrippable])
  | json j =>
    have hjson : ∀ c0 : Char,
        (dumpsString j).data = c0 :: (dumpsString j).data.tail →
        (c0 == '{' || c0 == '[') = true →
        RedisManager.get
          (.up now (dictSet es k
            (Payload.str (dumpsString j), now + expiration.getD defaultTtl)))
          k default = PyVal.json j := by
      intro c0 hc0 hc0'
      rw [RedisManager.get]
      simp only [hlive]
      rw [deserializeValue]
      rw [if_pos (by
        rw [startsWithChar, startsWithChar]
        rw [hc0]
        simpa using hc0')]
      rw [loads_dumps]
    cases j with
    | arr xs =>
      refine ⟨dictSet es k
        (Payload.str (dumpsString (JVal.arr xs)),
          now + expiration.getD defaultTtl),
        by rw [RedisManager.set]; rfl, ?_⟩
      refine hjson '[' ?_ (by decide)
      show dumpChars (JVal.arr xs) = _
      rw [show dumpChars (JVal.arr xs) = '[' :: (dumpArr xs ++ [']'])
            from by rw [dumpChars]]
      rfl
    | obj ms =>
      refine ⟨dictSet es k
        (Payload.str (dumpsString (JVal.obj ms)),
          now + expiration.getD defaultTtl),
        by rw [RedisManager.set]; rfl, ?_⟩
      refine hjson '{' ?_ (by decide)
      show dumpChars (JVal.obj ms) = _
      rw [show dumpChars (JVal.obj ms) = '{' :: (dumpObj ms ++ ['}'])
            from by rw [dumpChars]]
      rfl
    | null => exact absurd hv (by simp [roundtrippable])
    | bool b => exact absurd hv (by simp [roundtrippable])
    | num n => exact absurd hv (by simp [roundtrippable])
    | flt sig ex => exact absurd hv (by simp [roundtrippable])
    | nan => exact absurd hv (by simp [roundtrippable])
    | inf b => exact absurd hv (by simp [roundtrippable])
    | str s => exact absurd hv (by simp [roundtrippable])

theorem cache_set_get_roundtrip_witness :
    (0 : Nat) < (some 60 : Option Nat).getD 100 ∧
    roundtrippable (PyVal.json (JVal.obj [("a", JVal.num 1)])) = true ∧
    ∃ es', RedisManager.set 100 (Backend.up 5 []) "key"
        (PyVal.json (JVal.obj [("a", JVal.num 1)])) (some 60)
        = .ok (Backend.up 5 es', true) ∧
      RedisManager.get (Backend.up 5 es') "key" (PyVal.str "")
        = PyVal.json (JVal.obj [("a", JVal.num 1)]) :=
  ⟨by decide, rfl,
    cache_set_get_roundtrip 100 5 [] "key"
      (PyVal.json (JVal.obj [("a", JVal.num 1)])) (some 60) (PyVal.str "")
      (by decide) rfl⟩

/-! ### C5: error absorption -/

/-- Whether `json.dumps` accepts the value (every `str`/`bytes`/JSON
value does; only `unserializable` objects raise `TypeError`). -/
def PyVal.serializable : PyVal → Bool
  | .unserializable => false
  | _ => true

/-- C5, counterexample. `set` with an unserializable value raises the
`TypeError` from `json.dumps` to the caller — the `except` clause catches
only `redis.RedisError` and `ConnectionError` — instead of returning
`False`; so a serialization failure does propagate. -/
theorem cache_set_typeerror_cex :
    RedisManager.set 60 (Backend.up 0 []) "k" PyVal.unserializable none
      = .error .typeError := rfl

theorem serializeValue_ok_iff (v : PyVal) :
    (serializeValue v).isOk = v.serializable := by
  cases v <;> rfl

theorem serializeMapping_ok (mapping : List (String × PyVal))
    (h : mapping.all (fun p => p.2.serializable) = true) :
    ∃ ps, RedisManager.serializeMapping mapping = .ok ps := by
  induction mapping with
  | nil => exact ⟨[], rfl⟩
  | cons kv rest ih =>
    obtain ⟨k, v⟩ := kv
    simp only [List.all_cons, Bool.and_eq_true] at h
    obtain ⟨ps, hps⟩ := ih h.2
    cases v with
    | str s =>
      exact ⟨(k, Payload.str s) :: ps,
        by rw [RedisManager.serializeMapping, hps]; rfl⟩
    | bytes bs =>
      exact ⟨(k, Payload.bytes bs) :: ps,
        by rw [RedisManager.serializeMapping, hps]; rfl⟩
    | json j =>
      exact ⟨(k, Payload.str (dumpsString j)) :: ps,
        by rw [RedisManager.serializeMapping, hps]; rfl⟩
    | unserializable => exact absurd h.1 (by simp [PyVal.serializable])

theorem serializeMapping_err (mapping : List (String × PyVal))
    (h : mapping.all (fun p => p.2.serializable) = false) :
    RedisManager.serializeMapping mapping = .error .typeError := by
  induction mapping with
  | nil => simp at h
  | cons kv rest ih =>
    obtain ⟨k, v⟩ := kv
    simp only [List.all_cons, Bool.and_eq_false_iff] at h
    cases v with
    | unserializable => rfl
    | str s =>
      rcases h with h | h
      · exact absurd h (by simp [PyVal.serializable])
      · rw [RedisManager.serializeMapping, ih h]
        rfl
    | bytes bs =>
      rcases h with h | h
      · exact absurd h (by simp [PyVal.serializable])
      · rw [RedisManager.serializeMapping, ih h]
        rfl
    | json j =>
      rcases h with h | h
      · exact absurd h (by simp [PyVal.serializable])
      · rw [RedisManager.serializeMapping, ih h]
        rfl

/-- C5, amended. Underlying *connectivity* errors never propagate: with
the store unreachable, `get` returns the caller-supplied default (as it
does for missing or expired keys), `set`/`delete`/`flush_all` return
`False`, `exists` returns `False`, `get_many` returns an empty mapping,
and `set_many` returns `False` — none of them raises.  The one exception
to the claim is *serialization*: `set`/`set_many` succeed (in the
no-raise sense) exactly on serializable values, and raise the
`json.dumps` `TypeError` on an unserializable one (see the
counterexample). -/
theorem cache_ops_absorb_connectivity_errors (defaultTtl : Nat)
    (b : Backend) (k : String) (v : PyVal) (expiration : Option Nat)
    (default : PyVal) (mapping : List (String × PyVal))
    (keys : List String) :
    ((RedisManager.set defaultTtl b k v expiration).isOk
      = v.serializable) ∧
    (RedisManager.set defaultTtl .down k v expiration
      = if v.serializable then .ok (.down, false) else .error .typeError) ∧
    (RedisManager.get .down k default = default) ∧
    (RedisManager.delete .down k = (.down, false)) ∧
    (RedisManager.existsKey .down k = false) ∧
    (RedisManager.flushAll .down = (.down, false)) ∧
    (RedisManager.getMany .down keys = []) ∧
    ((RedisManager.setMany defaultTtl b mapping expiration).isOk
      = mapping.all (fun p => p.2.serializable)) ∧
    (RedisManager.setMany defaultTtl .down mapping expiration
      = if mapping.all (fun p => p.2.serializable) then .ok (.down, false)
        else .error .typeError) := by
  refine ⟨?_, ?_, rfl, rfl, rfl, rfl, rfl, ?_, ?_⟩
  · cases v with
    | str s => cases b <;> rfl
    | bytes bs => cases b <;> rfl
    | json j => cases b <;> rfl
    | unserializable => rfl
  · cases v <;> rfl
  · cases hall : mapping.all (fun p => p.2.serializable) with
    | true =>
      obtain ⟨ps, hps⟩ := serializeMapping_ok mapping hall
      rw [RedisManager.setMany, hps]
      cases b <;> rfl
    | false =>
      rw [RedisManager.setMany, serializeMapping_err mapping hall]
      rfl
  · cases hall : mapping.all (fun p => p.2.serializable) with
    | true =>
      obtain ⟨ps, hps⟩ := serializeMapping_ok mapping hall
      rw [RedisManager.setMany, hps]
      rfl
    | false =>
      rw [RedisManager.setMany, serializeMapping_err mapping hall]
      rfl

/-! ### C8: `get_many` returns exactly the live keys -/

theorem getMany_fold (now : Nat) (es : List (String × Payload × Nat)) :
    ∀ (keys : List String) (acc : List (String × PyVal)),
    (∀ k', dictGet acc k' = none ∨
      dictGet acc k' = (liveGet now es k').map deserializeValue) →
    ∀ k, dictGet
        (keys.foldl
          (fun result k' =>
            match liveGet now es k' with
            | none => result
            | some p => dictSet result k' (deserializeValue p)) acc) k
      = if keys.contains k then (liveGet now es k).map deserializeValue
        else dictGet acc k := by
  intro keys
  induction keys with
  | nil =>
    intro acc hacc k
    simp [List.foldl_nil]
  | cons k0 rest ih =>
    intro acc hacc k
    rw [List.foldl_cons]
    have hacc' : ∀ k',
        dictGet (match liveGet now es k0 with
          | none => acc
          | some p => dictSet acc k0 (deserializeValue p)) k'
          = none ∨
        dictGet (match liveGet now es k0 with
          | none => acc
          | some p => dictSet acc k0 (deserializeValue p)) k'
          = (liveGet now es k').map deserializeValue := by
      intro k'
      cases hl : liveGet now es k0 with
      | none => exact hacc k'
      | some p =>
        by_cases hk : (k0 == k') = true
        · have hk' : k0 = k' := by simpa using hk
          subst hk'
          rw [dictGet_dictSet_self, hl]
          exact Or.inr rfl
        · rw [dictGet_dictSet_ne _ _ _ _ (Bool.eq_false_iff.mpr hk)]
          exact hacc k'
    rw [ih _ hacc' k]
    by_cases hrest : rest.contains k = true
    · rw [if_pos hrest,
        if_pos (by rw [List.contains_cons, hrest, Bool.or_true])]
    · have hrest' : rest.contains k = false := Bool.eq_false_iff.mpr hrest
      rw [if_neg hrest]
      by_cases hk0 : (k0 == k) = true
      · have hk0' : k0 = k := by simpa using hk0
        subst hk0'
        rw [if_pos (by rw [List.contains_cons]; simp)]
        cases hl : liveGet now es k0 with
        | none =>
          have hc := hacc k0
          rw [hl] at hc
          simpa using hc
        | some p =>
          rw [dictGet_dictSet_self]
          rfl
      · have hk0ne : k0 ≠ k := by simpa using hk0
        have hkk0 : (k == k0) = false :=
          beq_eq_false_iff_ne.mpr (Ne.symm hk0ne)
        rw [if_neg (by rw [List.contains_cons, hkk0, hrest']; simp)]
        cases hl : liveGet now es k0 with
        | none => rfl
        | some p =>
          exact dictGet_dictSet_ne _ _ _ _ (Bool.eq_false_iff.mpr hk0)

/-- C8. The mapping `get_many` returns binds exactly those requested keys
that exist (live) in the store, each to its deserialized value; keys that
are absent or expired are omitted — never bound to a null value. -/
theorem get_many_exact_keys (now : Nat)
    (es : List (String × Payload × Nat)) (keys : List String) (k : String) :
    dictGet (RedisManager.getMany (.up now es) keys) k
      = if keys.contains k then (liveGet now es k).map deserializeValue
        else none := by
  rw [RedisManager.getMany]
  exact getMany_fold now es keys [] (fun _ => Or.inl rfl) k

/-! ### C9: `build_key` -/

theorem joinColon_cons (x : String) (l : List String) (h : l ≠ []) :
    RedisManager.joinColon (x :: l)
      = x ++ ":" ++ RedisManager.joinColon l := by
  cases l with
  | nil => exact absurd rfl h
  | cons y ys => rfl

/-- C9. `build_key` joins the string forms of exactly the truthy parts
with `:` in their original order: the concrete example of the claim; a
falsy part (empty string, zero, `None`) contributes nothing; a single
truthy part stands alone; and a truthy head with a truthy part somewhere
behind it is followed by a colon. -/
theorem build_key_joins_truthy_parts :
    RedisManager.buildKey
        [.s "a", .s "", .s "b", RedisManager.KeyPart.none] = "a:b" ∧
    (∀ (p : RedisManager.KeyPart) (ps : List RedisManager.KeyPart),
      p.truthy = false →
      RedisManager.buildKey (p :: ps) = RedisManager.buildKey ps) ∧
    (∀ p : RedisManager.KeyPart, p.truthy = true →
      RedisManager.buildKey [p] = p.toStr) ∧
    (∀ (p q : RedisManager.KeyPart) (ps : List RedisManager.KeyPart),
      p.truthy = true → q.truthy = true → q ∈ ps →
      RedisManager.buildKey (p :: ps)
        = p.toStr ++ ":" ++ RedisManager.buildKey ps) := by
  refine ⟨rfl, ?_, ?_, ?_⟩
  · intro p ps hp
    rw [RedisManager.buildKey, RedisManager.buildKey, List.filter_cons,
      if_neg (by simp [hp])]
  · intro p hp
    rw [RedisManager.buildKey, List.filter_cons, if_pos (by simp [hp])]
    rfl
  · intro p q ps hp hq hmem
    have hfil : q ∈ ps.filter RedisManager.KeyPart.truthy :=
      List.mem_filter.mpr ⟨hmem, hq⟩
    have hne : (ps.filter RedisManager.KeyPart.truthy).map
        RedisManager.KeyPart.toStr ≠ [] := by
      intro h0
      rw [List.map_eq_nil_iff] at h0
      rw [h0] at hfil
      exact absurd hfil (List.not_mem_nil q)
    rw [RedisManager.buildKey, RedisManager.buildKey, List.filter_cons,
      if_pos (by simp [hp]), List.map_cons, joinColon_cons _ _ hne]

theorem build_key_joins_truthy_parts_witness :
    RedisManager.buildKey
        [RedisManager.KeyPart.none, RedisManager.KeyPart.s "x"]
      = RedisManager.buildKey [RedisManager.KeyPart.s "x"] :=
  build_key_joins_truthy_parts.2.1 RedisManager.KeyPart.none
    [RedisManager.KeyPart.s "x"] rfl
